/-
Verification development for the stable-memory anchor store of
`src/internet_identity/src/storage.rs`.

The Rust code is shallowly embedded as follows.

* Machine integers (`u8`, `u16`, `u32`, `u64`) are modelled as `Nat` with an
  explicit `% 2^w` at every operation where the Rust code can wrap in release
  builds (the deployed build profile).  `usize` is modelled as 64 bits wide.
* A stable memory (the `Memory` trait) is a pair of a size in 65536-byte
  pages and a total byte function `Nat → Nat`.  `memWrite` is the effect of a
  write whose growth succeeds: it places all bytes and grows the memory to
  cover them (spec section 4.1: a write either places all bytes or is a
  programmer error; section 4.4: writes past the end trigger growth).  Where
  the program writes through a windowed view whose growth can fail — the
  anchor memory, restricted to `[2, MAX_WASM_PAGES)` of the backing store —
  the wrapper checks the window first and a write beyond it is the fatal
  grow-failure panic (spec sections 4.2 and 7), modelled as `none`.  A read
  of a range succeeds exactly when the range lies below `size * 65536`
  (spec section 4.4: reads past `size × PAGE` fail).
* Fallible operations return `Except`/`Option`; a trap / panic is `none`.
* The candid codec for anchors is out of scope (an opaque encoder / decoder
  pair); operations are stated on the encoded byte string, and decoding is a
  parameter where a claim mentions the decoded value.
* The `#[repr(packed)]` struct-to-bytes casts of the header are embedded as
  explicit little-endian field serializers matching the documented layout.
-/
import Mathlib

set_option maxRecDepth 10000

/-- Little-endian byte serialization of `n` into `k` bytes (least significant
byte first), as produced by `to_le_bytes` / by reinterpreting a packed struct
on a little-endian target. -/
def toLE (k n : Nat) : List Nat :=
  match k with
  | 0 => []
  | k + 1 => n % 256 :: toLE k (n / 256)

/-- Little-endian byte deserialization, inverse of `toLE` below `2^(8k)`. -/
def fromLE (l : List Nat) : Nat :=
  match l with
  | [] => 0
  | b :: rest => b % 256 + 256 * fromLE rest

theorem toLE_length (k n : Nat) : (toLE k n).length = k := by
  induction k generalizing n with
  | zero => rfl
  | succ k ih => simp [toLE, ih]

theorem fromLE_toLE (k n : Nat) : fromLE (toLE k n) = n % 256 ^ k := by
  induction k generalizing n with
  | zero => simp [toLE, fromLE, Nat.mod_one]
  | succ k ih =>
    simp only [toLE, fromLE, ih]
    rw [Nat.pow_succ, Nat.mul_comm (256 ^ k) 256, Nat.mod_mul, Nat.mod_mod_of_dvd n (dvd_refl 256)]

theorem toLE_lt (k n : Nat) : ∀ b ∈ toLE k n, b < 256 := by
  induction k generalizing n with
  | zero => simp [toLE]
  | succ k ih =>
    intro b hb
    simp only [toLE, List.mem_cons] at hb
    rcases hb with h | h
    · omega
    · exact ih _ _ h

theorem fromLE_lt (l : List Nat) : fromLE l < 256 ^ l.length := by
  induction l with
  | nil => simp [fromLE]
  | cons b rest ih =>
    simp only [fromLE, List.length_cons, Nat.pow_succ]
    have hb : b % 256 < 256 := Nat.mod_lt _ (by omega)
    calc b % 256 + 256 * fromLE rest < 256 + 256 * fromLE rest := by omega
    _ ≤ 256 * (fromLE rest + 1) := by ring_nf; omega
    _ ≤ 256 * 256 ^ rest.length := by
        have : fromLE rest + 1 ≤ 256 ^ rest.length := ih
        exact Nat.mul_le_mul_left _ this
    _ = 256 ^ rest.length * 256 := by ring

/-- One WASM page, in bytes (`WASM_PAGE_SIZE`). -/
def WASM_PAGE_SIZE : Nat := 65536

/-- Bytes reserved for metadata before the anchor records (`ENTRY_OFFSET`). -/
def ENTRY_OFFSET : Nat := 2 * WASM_PAGE_SIZE

/-- The fixed record slot width (`DEFAULT_ENTRY_SIZE`). -/
def DEFAULT_ENTRY_SIZE : Nat := 4096

/-- `MAX_STABLE_MEMORY_SIZE / WASM_PAGE_SIZE` (`MAX_WASM_PAGES`), also the
modelled capacity of the backing stable memory (spec section 6: total
addressable size up to 32 GiB). -/
def MAX_WASM_PAGES : Nat := 32 * (2 ^ 30) / WASM_PAGE_SIZE

/-- Total stable memory size assumed by the layout (`STABLE_MEMORY_SIZE`). -/
def STABLE_MEMORY_SIZE : Nat := 32 * (2 ^ 30)

/-- Reserved tail of stable memory (`STABLE_MEMORY_RESERVE = 8 * GB / 10`,
integer division as in the Rust constant expression). -/
def STABLE_MEMORY_RESERVE : Nat := 8 * (2 ^ 30) / 10

/-- Memory-manager bucket size in pages (`BUCKET_SIZE_IN_PAGES`). -/
def BUCKET_SIZE_IN_PAGES : Nat := 128

/-- The 66-byte storage header (`struct Header` in `storage.rs`), with the
multi-byte machine-integer fields as `Nat` and the byte-array fields as byte
lists. -/
structure Header where
  magic : List Nat
  version : Nat
  num_anchors : Nat
  id_range_lo : Nat
  id_range_hi : Nat
  entry_size : Nat
  salt : List Nat
  first_entry_offset : Nat
  deriving DecidableEq, Repr

/-- Type-level bounds of the Rust `Header` struct: every field value fits its
machine type and the byte arrays have their declared lengths. -/
def HeaderWF (h : Header) : Prop :=
  h.magic.length = 3 ∧ h.magic.all (· < 256) = true ∧ h.version < 2 ^ 8 ∧
    h.num_anchors < 2 ^ 32 ∧ h.id_range_lo < 2 ^ 64 ∧ h.id_range_hi < 2 ^ 64 ∧
    h.entry_size < 2 ^ 16 ∧ h.salt.length = 32 ∧ h.salt.all (· < 256) = true ∧
    h.first_entry_offset < 2 ^ 64

instance (h : Header) : Decidable (HeaderWF h) := by
  unfold HeaderWF; infer_instance

/-- The 66-byte serialized form of the header: the packed, little-endian
struct layout documented at the top of `storage.rs` (magic, version,
`num_anchors : u32`, `id_range_lo : u64`, `id_range_hi : u64`,
`entry_size : u16`, 32 salt bytes, `first_entry_offset : u64`). -/
def encodeHeader (h : Header) : List Nat :=
  h.magic ++ [h.version] ++ toLE 4 h.num_anchors ++ toLE 8 h.id_range_lo ++
    toLE 8 h.id_range_hi ++ toLE 2 h.entry_size ++ h.salt ++
    toLE 8 h.first_entry_offset

/-- Deserialization of the 66-byte header from a byte function (the
`std::mem::zeroed` + `memory.read` reinterpretation in `from_memory`). -/
def parseHeader (f : Nat → Nat) : Header :=
  { magic := List.ofFn fun i : Fin 3 => f i
    version := f 3
    num_anchors := fromLE (List.ofFn fun i : Fin 4 => f (4 + i))
    id_range_lo := fromLE (List.ofFn fun i : Fin 8 => f (8 + i))
    id_range_hi := fromLE (List.ofFn fun i : Fin 8 => f (16 + i))
    entry_size := fromLE (List.ofFn fun i : Fin 2 => f (24 + i))
    salt := List.ofFn fun i : Fin 32 => f (26 + i)
    first_entry_offset := fromLE (List.ofFn fun i : Fin 8 => f (58 + i)) }

theorem encodeHeader_length (h : Header) (hwf : HeaderWF h) :
    (encodeHeader h).length = 66 := by
  obtain ⟨h1, -, -, -, -, -, -, h8, -, -⟩ := hwf
  simp [encodeHeader, toLE_length, h1, h8]

/-- A stable memory: a size in pages together with a total byte function.
Beyond `size * WASM_PAGE_SIZE` the byte function is not observable (reads are
bounds-checked against the size). -/
structure Mem where
  size : Nat
  bytes : Nat → Nat

/-- Number of pages needed to cover `n` bytes. -/
def pagesFor (n : Nat) : Nat := (n + WASM_PAGE_SIZE - 1) / WASM_PAGE_SIZE

/-- Effect of a (buffered) writer placing `buf` at byte offset `addr` when
its growth succeeds: all bytes are placed and the memory grows to cover them
(spec sections 4.1 and 4.4).  Call sites writing through a windowed view
whose growth can fail check the window before using this (the anchor write
path in `write_entry_bytes`); the header-memory and migration writes stay
within the first two backing pages, where growth cannot fail. -/
def memWrite (m : Mem) (addr : Nat) (buf : List Nat) : Mem :=
  { size := max m.size (pagesFor (addr + buf.length))
    bytes := fun i =>
      if addr ≤ i ∧ i < addr + buf.length then buf.getD (i - addr) 0
      else m.bytes i }

/-- `grow(delta)` on the backing stable memory: succeeds (appending zeroed
pages) while the result stays within the 32 GiB addressable maximum, and
otherwise fails returning `-1`, which the migration code ignores. -/
def growMem (m : Mem) (delta : Nat) : Mem :=
  if m.size + delta ≤ MAX_WASM_PAGES then { m with size := m.size + delta }
  else m

/-- A bounds-checked read of `k` bytes at offset `addr` (spec section 4.4:
reads past `size × PAGE` fail). -/
def readExact (m : Mem) (addr k : Nat) : Option (List Nat) :=
  if addr + k ≤ m.size * WASM_PAGE_SIZE then
    some (List.ofFn fun i : Fin k => m.bytes (addr + i))
  else none

theorem memWrite_bytes_lt (m : Mem) (addr : Nat) (buf : List Nat) (i : Nat)
    (hi : i < addr) : (memWrite m addr buf).bytes i = m.bytes i := by
  simp only [memWrite]
  rw [if_neg]; omega

theorem memWrite_bytes_ge (m : Mem) (addr : Nat) (buf : List Nat) (i : Nat)
    (hi : addr + buf.length ≤ i) : (memWrite m addr buf).bytes i = m.bytes i := by
  simp only [memWrite]
  rw [if_neg]; omega

theorem memWrite_bytes_in (m : Mem) (addr : Nat) (buf : List Nat) (i : Nat)
    (h1 : addr ≤ i) (h2 : i < addr + buf.length) :
    (memWrite m addr buf).bytes i = buf.getD (i - addr) 0 := by
  simp only [memWrite]
  rw [if_pos ⟨h1, h2⟩]

theorem memWrite_size_ge (m : Mem) (addr : Nat) (buf : List Nat) :
    m.size ≤ (memWrite m addr buf).size := by
  simp [memWrite]

theorem memWrite_size_covers (m : Mem) (addr : Nat) (buf : List Nat) :
    addr + buf.length ≤ (memWrite m addr buf).size * WASM_PAGE_SIZE := by
  simp only [memWrite]
  have h1 : addr + buf.length ≤ pagesFor (addr + buf.length) * WASM_PAGE_SIZE := by
    simp only [pagesFor, WASM_PAGE_SIZE]
    have := Nat.div_add_mod (addr + buf.length + 65536 - 1) 65536
    have h2 := Nat.mod_lt (addr + buf.length + 65536 - 1) (y := 65536) (by omega)
    omega
  calc addr + buf.length ≤ pagesFor (addr + buf.length) * WASM_PAGE_SIZE := h1
  _ ≤ max m.size (pagesFor (addr + buf.length)) * WASM_PAGE_SIZE :=
      Nat.mul_le_mul_right _ (le_max_right _ _)

theorem ofFn_getD_self (l : List Nat) (k : Nat) (hl : l.length = k) :
    (List.ofFn fun i : Fin k => l.getD i 0) = l := by
  apply List.ext_getElem
  · simp [hl]
  · intro i h1 h2
    rw [List.getElem_ofFn]
    exact List.getD_eq_getElem l 0 h2

theorem window_extract (P X S : List Nat) (k c : Nat) (hc : P.length = c)
    (hx : X.length = k) :
    (List.ofFn fun i : Fin k => (P ++ (X ++ S)).getD (c + i) 0) = X := by
  have hpt : ∀ i : Fin k, (P ++ (X ++ S)).getD (c + i) 0 = X.getD i 0 := by
    intro i
    rw [List.getD_append_right _ _ _ _ (by omega), List.getD_append _ _ _ _ (by omega)]
    congr 1
    omega
  calc (List.ofFn fun i : Fin k => (P ++ (X ++ S)).getD (c + i) 0)
      = List.ofFn fun i : Fin k => X.getD i 0 := by
        exact congrArg List.ofFn (funext hpt)
  _ = X := ofFn_getD_self X k hx

theorem byte_extract (P S : List Nat) (x : Nat) (c : Nat) (hc : P.length = c) :
    (P ++ (x :: S)).getD c 0 = x := by
  rw [List.getD_append_right _ _ _ _ (by omega)]
  simp [hc]

theorem bytes_window (m : Mem) (E : List Nat) (hlen : E.length = 66) (c k : Nat)
    (hck : c + k ≤ 66) :
    (List.ofFn fun i : Fin k => (memWrite m 0 E).bytes (c + i)) =
      List.ofFn fun i : Fin k => E.getD (c + i) 0 := by
  refine congrArg List.ofFn (funext fun i => ?_)
  have hik := i.isLt
  rw [memWrite_bytes_in _ _ _ _ (by omega) (by omega)]
  simp

/-- Writing the 66 serialized header bytes at offset 0 and parsing them back
recovers the header (for a header satisfying its machine-type bounds). -/
theorem parseHeader_memWrite_encode (m : Mem) (h : Header) (hwf : HeaderWF h) :
    parseHeader (memWrite m 0 (encodeHeader h)).bytes = h := by
  obtain ⟨hm3, -, hv, hna, hlo, hhi, hes, hs32, -, hfeo⟩ := hwf
  have hlen : (encodeHeader h).length = 66 := by
    simp [encodeHeader, toLE_length, hm3, hs32]
  have hmagic : (List.ofFn fun i : Fin 3 => (memWrite m 0 (encodeHeader h)).bytes i) =
      h.magic := by
    have h0 : (List.ofFn fun i : Fin 3 => (memWrite m 0 (encodeHeader h)).bytes i.val) =
        List.ofFn fun i : Fin 3 => (memWrite m 0 (encodeHeader h)).bytes (0 + i.val) := by
      simp
    rw [h0, bytes_window m _ hlen 0 3 (by omega)]
    have hE : encodeHeader h = ([] : List Nat) ++ (h.magic ++ ([h.version] ++
        toLE 4 h.num_anchors ++ toLE 8 h.id_range_lo ++ toLE 8 h.id_range_hi ++
        toLE 2 h.entry_size ++ h.salt ++ toLE 8 h.first_entry_offset)) := by
      simp [encodeHeader, List.append_assoc]
    rw [hE]
    exact window_extract _ _ _ 3 0 rfl hm3
  have hver : (memWrite m 0 (encodeHeader h)).bytes 3 = h.version := by
    rw [memWrite_bytes_in _ _ _ _ (by omega) (by omega)]
    have hE : encodeHeader h = h.magic ++ (h.version :: (toLE 4 h.num_anchors ++
        toLE 8 h.id_range_lo ++ toLE 8 h.id_range_hi ++ toLE 2 h.entry_size ++
        h.salt ++ toLE 8 h.first_entry_offset)) := by
      simp [encodeHeader, List.append_assoc]
    rw [Nat.sub_zero, hE]
    exact byte_extract _ _ _ 3 hm3
  have hnum : (List.ofFn fun i : Fin 4 => (memWrite m 0 (encodeHeader h)).bytes (4 + i)) =
      toLE 4 h.num_anchors := by
    rw [bytes_window m _ hlen 4 4 (by omega)]
    have hE : encodeHeader h = (h.magic ++ [h.version]) ++ (toLE 4 h.num_anchors ++
        (toLE 8 h.id_range_lo ++ toLE 8 h.id_range_hi ++ toLE 2 h.entry_size ++
        h.salt ++ toLE 8 h.first_entry_offset)) := by
      simp [encodeHeader, List.append_assoc]
    rw [hE]
    exact window_extract _ _ _ 4 4 (by simp [hm3]) (toLE_length 4 _)
  have hlo8 : (List.ofFn fun i : Fin 8 => (memWrite m 0 (encodeHeader h)).bytes (8 + i)) =
      toLE 8 h.id_range_lo := by
    rw [bytes_window m _ hlen 8 8 (by omega)]
    have hE : encodeHeader h = (h.magic ++ [h.version] ++ toLE 4 h.num_anchors) ++
        (toLE 8 h.id_range_lo ++ (toLE 8 h.id_range_hi ++ toLE 2 h.entry_size ++
        h.salt ++ toLE 8 h.first_entry_offset)) := by
      simp [encodeHeader, List.append_assoc]
    rw [hE]
    exact window_extract _ _ _ 8 8 (by simp [hm3, toLE_length]) (toLE_length 8 _)
  have hhi8 : (List.ofFn fun i : Fin 8 => (memWrite m 0 (encodeHeader h)).bytes (16 + i)) =
      toLE 8 h.id_range_hi := by
    rw [bytes_window m _ hlen 16 8 (by omega)]
    have hE : encodeHeader h = (h.magic ++ [h.version] ++ toLE 4 h.num_anchors ++
        toLE 8 h.id_range_lo) ++ (toLE 8 h.id_range_hi ++ (toLE 2 h.entry_size ++
        h.salt ++ toLE 8 h.first_entry_offset)) := by
      simp [encodeHeader, List.append_assoc]
    rw [hE]
    exact window_extract _ _ _ 8 16 (by simp [hm3, toLE_length]) (toLE_length 8 _)
  have hes2 : (List.ofFn fun i : Fin 2 => (memWrite m 0 (encodeHeader h)).bytes (24 + i)) =
      toLE 2 h.entry_size := by
    rw [bytes_window m _ hlen 24 2 (by omega)]
    have hE : encodeHeader h = (h.magic ++ [h.version] ++ toLE 4 h.num_anchors ++
        toLE 8 h.id_range_lo ++ toLE 8 h.id_range_hi) ++ (toLE 2 h.entry_size ++
        (h.salt ++ toLE 8 h.first_entry_offset)) := by
      simp [encodeHeader, List.append_assoc]
    rw [hE]
    exact window_extract _ _ _ 2 24 (by simp [hm3, toLE_length]) (toLE_length 2 _)
  have hsalt : (List.ofFn fun i : Fin 32 => (memWrite m 0 (encodeHeader h)).bytes (26 + i)) =
      h.salt := by
    rw [bytes_window m _ hlen 26 32 (by omega)]
    have hE : encodeHeader h = (h.magic ++ [h.version] ++ toLE 4 h.num_anchors ++
        toLE 8 h.id_range_lo ++ toLE 8 h.id_range_hi ++ toLE 2 h.entry_size) ++
        (h.salt ++ toLE 8 h.first_entry_offset) := by
      simp [encodeHeader, List.append_assoc]
    rw [hE]
    exact window_extract _ _ _ 32 26 (by simp [hm3, toLE_length]) hs32
  have hfeo8 : (List.ofFn fun i : Fin 8 => (memWrite m 0 (encodeHeader h)).bytes (58 + i)) =
      toLE 8 h.first_entry_offset := by
    rw [bytes_window m _ hlen 58 8 (by omega)]
    have hE : encodeHeader h = (h.magic ++ [h.version] ++ toLE 4 h.num_anchors ++
        toLE 8 h.id_range_lo ++ toLE 8 h.id_range_hi ++ toLE 2 h.entry_size ++
        h.salt) ++ (toLE 8 h.first_entry_offset ++ ([] : List Nat)) := by
      simp [encodeHeader, List.append_assoc]
    rw [hE]
    exact window_extract _ _ _ 8 58 (by simp [hm3, hs32, toLE_length]) (toLE_length 8 _)
  cases h with
  | mk mg v na lo hi es sa feo =>
    simp only [parseHeader, Header.mk.injEq]
    refine ⟨hmagic, hver, ?_, ?_, ?_, ?_, hsalt, ?_⟩
    · rw [hnum, fromLE_toLE]
      exact Nat.mod_eq_of_lt (by exact_mod_cast hna)
    · rw [hlo8, fromLE_toLE]
      exact Nat.mod_eq_of_lt (by exact_mod_cast hlo)
    · rw [hhi8, fromLE_toLE]
      exact Nat.mod_eq_of_lt (by exact_mod_cast hhi)
    · rw [hes2, fromLE_toLE]
      exact Nat.mod_eq_of_lt (by exact_mod_cast hes)
    · rw [hfeo8, fromLE_toLE]
      exact Nat.mod_eq_of_lt (by exact_mod_cast hfeo)

/-- The recoverable error taxonomy (`enum StorageError`).  The candid error
payloads of the two codec variants are not modelled (the codec is opaque). -/
inductive StorageErr where
  | anchorNumberOutOfRange (anchor_number : Nat) (lo : Nat) (hi : Nat)
  | badAnchorNumber (n : Nat)
  | deserializationError
  | serializationError
  | entrySizeLimitExceeded (n : Nat)
  deriving DecidableEq, Repr

/-- The generic anchor store (`struct Storage<M>`), with the header, the
unbuffered header memory and the anchor memory (either flavour presents the
same read/write interface, so it is a single `Mem` here). -/
structure StorageA where
  header : Header
  headerMem : Mem
  anchorMem : Mem

/-- `Storage::flush`: serialize the header and write its 66 bytes at offset 0
of the header memory. -/
def flush (st : StorageA) : StorageA :=
  { st with headerMem := memWrite st.headerMem 0 (encodeHeader st.header) }

/-- `Storage::salt`: `None` while the header salt is still all zeroes. -/
def saltOf (st : StorageA) : Option (List Nat) :=
  if st.header.salt = List.replicate 32 0 then none else some st.header.salt

/-- `Storage::update_salt`: traps (`none`) when a salt is already set,
otherwise stores the new salt and flushes the header. -/
def update_salt (st : StorageA) (s : List Nat) : Option StorageA :=
  if (saltOf st).isSome then none
  else some (flush { st with header := { st.header with salt := s } })

/-- `Storage::allocate_anchor`: `anchor_number = id_range_lo + num_anchors`
(wrapping `u64` addition), `None` when it reaches `id_range_hi`, otherwise
increment `num_anchors` (wrapping `u32` addition) and flush.  The returned
fresh `Anchor` value is opaque and not modelled. -/
def allocate_anchor (st : StorageA) : Option Nat × StorageA :=
  let anchorNumber := (st.header.id_range_lo + st.header.num_anchors) % 2 ^ 64
  if st.header.id_range_hi ≤ anchorNumber then (none, st)
  else
    (some anchorNumber,
      flush { st with header :=
        { st.header with num_anchors := (st.header.num_anchors + 1) % 2 ^ 32 } })

/-- `Storage::anchor_number_to_record`: range check against
`[id_range_lo, id_range_hi)`, then the `as u32` cast of the slot index
(wrapping), then the allocation check against `num_anchors`. -/
def anchor_number_to_record (h : Header) (anchor_number : Nat) :
    Except StorageErr Nat :=
  if anchor_number < h.id_range_lo ∨ h.id_range_hi ≤ anchor_number then
    .error (.anchorNumberOutOfRange anchor_number h.id_range_lo h.id_range_hi)
  else if h.num_anchors ≤ (anchor_number - h.id_range_lo) % 2 ^ 32 then
    .error (.badAnchorNumber anchor_number)
  else .ok ((anchor_number - h.id_range_lo) % 2 ^ 32)

/-- `Storage::candid_entry_size_limit`: `entry_size as usize - 2` with the
wrapping subtraction of the release build (`usize` modelled as 64 bits). -/
def candid_entry_size_limit (h : Header) : Nat :=
  (h.entry_size + (2 ^ 64 - 2)) % 2 ^ 64

/-- `Storage::record_address`: `record_number * entry_size` (`u64`; cannot
wrap since `record_number < 2^32` and `entry_size < 2^16`). -/
def record_address (h : Header) (record_number : Nat) : Nat :=
  record_number * h.entry_size

/-- Capacity in pages of the anchor memory.  Modelled from the spec: this
code lives in the ic-stable-structures dependency, not under src/.  For the
flat (v6) flavour it is the restricted window `[2, MAX_WASM_PAGES)` of the
backing store (spec section 4.2, storage.rs lines 311 and 405); for the
managed (v7) flavour the bucket region occupies the same window, allocated
in whole 128-page buckets (spec sections 4.3 and 4.8), and the anchor memory
is the only allocated virtual memory in this module. -/
def anchorCapPages (h : Header) : Nat :=
  if h.version = 7 then
    (MAX_WASM_PAGES - 2) / BUCKET_SIZE_IN_PAGES * BUCKET_SIZE_IN_PAGES
  else MAX_WASM_PAGES - 2

/-- `Storage::write_entry_bytes`: length check, then the buffered writer puts
the 2-byte little-endian length followed by the payload at the record's
address and flushes.  Returns the error, leaving the store untouched, when
the payload exceeds the limit.  A write reaching beyond the anchor memory's
window cannot grow it and panics (`expect("memory write failed")`, spec
sections 4.2 and 7), modelled as `none`. -/
def write_entry_bytes (st : StorageA) (record_number : Nat) (buf : List Nat) :
    Option (Except StorageErr Unit × StorageA) :=
  if candid_entry_size_limit st.header < buf.length then
    some (.error (.entrySizeLimitExceeded buf.length), st)
  else if record_address st.header record_number + (2 + buf.length) ≤
      anchorCapPages st.header * WASM_PAGE_SIZE then
    some (.ok (),
      { st with
        anchorMem := memWrite st.anchorMem
            (record_address st.header record_number)
            (toLE 2 buf.length ++ buf) })
  else none

/-- `Storage::write` with the candid encoding of the anchor already applied:
slot lookup, then `write_entry_bytes`; `none` is the fatal grow-failure
panic. -/
def write_anchor (st : StorageA) (anchor_number : Nat) (buf : List Nat) :
    Option (Except StorageErr Unit × StorageA) :=
  match anchor_number_to_record st.header anchor_number with
  | .error e => some (.error e, st)
  | .ok record_number => write_entry_bytes st record_number buf

/-- `Storage::read_entry_bytes`: read the 2-byte length, trap (`none`) when
it exceeds the entry size limit (stable memory corruption), then read that
many payload bytes; a reader hitting the end of memory panics (`none`). -/
def read_entry_bytes (st : StorageA) (record_number : Nat) : Option (List Nat) :=
  match readExact st.anchorMem (record_address st.header record_number) 2 with
  | none => none
  | some len_buf =>
    let len := fromLE len_buf
    if candid_entry_size_limit st.header < len then none
    else readExact st.anchorMem (record_address st.header record_number + 2) len

/-- `Storage::read` with the candid decoder as an explicit parameter:
slot lookup, `read_entry_bytes`, then decode (a decoder failure is the
`DeserializationError` case). -/
def read_with {α : Type} (dec : List Nat → Option α) (st : StorageA)
    (anchor_number : Nat) : Option (Except StorageErr α) :=
  match anchor_number_to_record st.header anchor_number with
  | .error e => some (.error e)
  | .ok record_number =>
    match read_entry_bytes st record_number with
    | none => none
    | some data_buf =>
      match dec data_buf with
      | some a => some (.ok a)
      | none => some (.error .deserializationError)

/-- `Storage::max_entries`:
`(STABLE_MEMORY_SIZE - first_entry_offset - STABLE_MEMORY_RESERVE) / entry_size`
with wrapping `u64` subtraction; the division panics when `entry_size = 0`,
which callers must handle (modelled at the call sites). -/
def maxEntries (h : Header) : Nat :=
  ((STABLE_MEMORY_SIZE + (2 ^ 64 - h.first_entry_offset % 2 ^ 64)) % 2 ^ 64 +
      (2 ^ 64 - STABLE_MEMORY_RESERVE)) % 2 ^ 64 / h.entry_size

/-- `Storage::set_anchor_number_range`: trap (`none`) on an improper range,
on a range larger than `max_entries` (whose division by zero when
`entry_size = 0` also traps), and, when anchors exist, on a moved lower bound
or a range that no longer accommodates them; otherwise update both bounds and
flush. -/
def set_anchor_number_range (st : StorageA) (lo hi : Nat) : Option StorageA :=
  if hi < lo then none
  else if st.header.entry_size = 0 then none
  else if maxEntries st.header < hi - lo then none
  else if 0 < st.header.num_anchors ∧ st.header.id_range_lo ≠ lo then none
  else if 0 < st.header.num_anchors ∧ hi - lo < st.header.num_anchors then none
  else some (flush { st with header :=
    { st.header with id_range_lo := lo, id_range_hi := hi } })

/-- Result of `Storage::from_memory`: `None` for an empty memory, a trap for
an undecodable one, or the recovered store. -/
inductive FmResult where
  | empty
  | trap
  | ok (header : Header) (managed : Bool) (backing : Mem)

/-- A concrete store recovered from a backing memory: its header, whether the
anchor memory is the managed (v7) flavour, and the shared backing memory. -/
structure StorageC where
  header : Header
  managed : Bool
  backing : Mem

/-- `Storage::from_memory`: `None` below one page; read and decode the
header; trap on a bad magic or an unsupported version; otherwise rebuild the
store with the header exactly as read (no validation of the remaining
fields).  Modelled from the spec: the v7 branch recovers the memory manager
from page 1 onward per section 4.3, which specifies no abort paths, so that
branch is a pure view construction here. -/
def fromMemory (m : Mem) : FmResult :=
  if m.size < 1 then .empty
  else if (parseHeader m.bytes).magic ≠ [73, 73, 67] then .trap
  else if (parseHeader m.bytes).version < 6 then .trap
  else if ¬ (6 ≤ (parseHeader m.bytes).version ∧
      (parseHeader m.bytes).version ≤ 7) then .trap
  else if (parseHeader m.bytes).version = 6 then
    .ok (parseHeader m.bytes) false m
  else if (parseHeader m.bytes).version = 7 then
    .ok (parseHeader m.bytes) true m
  else .trap

/-- Pages of the v6 anchor memory: the restricted view `[2, MAX_WASM_PAGES)`
of the backing memory (spec section 4.2: the view's size is clamped to its
page range). -/
def anchorPagesV6 (m : Mem) : Nat := min m.size MAX_WASM_PAGES - 2

/-- Index of the `k`-th occurrence of `v` in `l` (spec section 4.3: the k-th
entry of the bucket table holding the requested memory's index is the
physical bucket of logical bucket k). -/
def findNth (l : List Nat) (v : Nat) (k : Nat) : Option Nat :=
  match l with
  | [] => none
  | x :: xs =>
    if x = v then
      match k with
      | 0 => some 0
      | k + 1 => (findNth xs v k).map (· + 1)
    else (findNth xs v k).map (· + 1)

/-- Byte offset of the bucket-to-memory table inside the memory-manager
header region: `(3 + 1 + 2 + 2) + 32 + 255 * 8`. -/
def BUCKETS_OFFSET : Nat := (3 + 1 + 2 + 2) + 32 + 255 * 8

/-- The bucket-to-memory assignment table read from backing page 1.
Modelled from the spec (section 3, memory-manager header): 32768 one-byte
entries following the fixed header fields. -/
def mmTable (m : Mem) : List Nat :=
  List.ofFn fun j : Fin 32768 => m.bytes (WASM_PAGE_SIZE + BUCKETS_OFFSET + j)

/-- The size in pages of virtual memory 0 (the anchor memory), read from the
`memory_sizes_in_pages[0]` field of the memory-manager header at backing page
1.  Modelled from the spec (section 3): the field sits after magic, version,
two `u16` counters and 32 reserved bytes, hence at offset 40. -/
def mmMemSize0 (m : Mem) : Nat :=
  fromLE (List.ofFn fun j : Fin 8 => m.bytes (WASM_PAGE_SIZE + 40 + j))

/-- Translation of a virtual-memory-0 offset to a backing-memory byte
address.  Modelled from the spec (sections 4.3 and 4.8): logical bucket
`o / (128 * PAGE)`, its physical bucket is the corresponding occurrence of
index 0 in the bucket table, and the bucket region starts at backing page 2. -/
def vmAddr (m : Mem) (o : Nat) : Option Nat :=
  (findNth (mmTable m) 0 (o / (BUCKET_SIZE_IN_PAGES * WASM_PAGE_SIZE))).map
    fun pb => 2 * WASM_PAGE_SIZE + pb * (BUCKET_SIZE_IN_PAGES * WASM_PAGE_SIZE) +
      o % (BUCKET_SIZE_IN_PAGES * WASM_PAGE_SIZE)

/-- Byte at anchor-memory offset `o` of a recovered store: the restricted
view (offset by two pages) for the v6 flavour, the memory-manager translation
for the v7 flavour (an unmapped bucket defaults to 0; it is never reached
within bounds). -/
def anchorByte (s : StorageC) (o : Nat) : Nat :=
  if s.managed then ((vmAddr s.backing o).map s.backing.bytes).getD 0
  else s.backing.bytes (2 * WASM_PAGE_SIZE + o)

/-- Size in pages of the anchor memory of a recovered store. -/
def anchorSizePages (s : StorageC) : Nat :=
  if s.managed then mmMemSize0 s.backing else anchorPagesV6 s.backing

/-- `read_entry_bytes` on a recovered store: bounds-checked read of the
2-byte length at `record * entry_size`, the corruption trap when the stored
length exceeds the limit, then the bounds-checked payload read. -/
def readEntryBytesC (s : StorageC) (record_number : Nat) : Option (List Nat) :=
  if record_number * s.header.entry_size + 2 ≤
      anchorSizePages s * WASM_PAGE_SIZE then
    if candid_entry_size_limit s.header <
        anchorByte s (record_number * s.header.entry_size) % 256 +
          256 * (anchorByte s (record_number * s.header.entry_size + 1) % 256)
    then none
    else if record_number * s.header.entry_size + 2 +
        (anchorByte s (record_number * s.header.entry_size) % 256 +
          256 * (anchorByte s (record_number * s.header.entry_size + 1) % 256)) ≤
        anchorSizePages s * WASM_PAGE_SIZE then
      some (List.ofFn
        fun i : Fin (anchorByte s (record_number * s.header.entry_size) % 256 +
          256 * (anchorByte s (record_number * s.header.entry_size + 1) % 256)) =>
          anchorByte s (record_number * s.header.entry_size + 2 + i))
    else none
  else none

/-- `Storage::read` on a recovered store, at the encoded-bytes level
(the candid decoder is opaque and applied outside). -/
def readC (s : StorageC) (anchor_number : Nat) :
    Option (Except StorageErr (List Nat)) :=
  match anchor_number_to_record s.header anchor_number with
  | .error e => some (.error e)
  | .ok record_number => (readEntryBytesC s record_number).map .ok

/-- The bucket-to-memory table built by the migration: 32768 entries
initialized to the unallocated marker 255, the first `nb` set to memory
index 0. -/
def bucketTable (nb : Nat) : List Nat :=
  List.replicate nb 0 ++ List.replicate (32768 - nb) 255

/-- The serialized memory-manager header built by the migration: magic
`"MGR"`, version 1, `num_allocated_buckets : u16`, `bucket_size_in_pages =
128 : u16`, 32 reserved zero bytes, `memory_sizes_in_pages[0] = p : u64` and
254 further zeroed `u64` sizes. -/
def encodeMMHeader (nb p : Nat) : List Nat :=
  [77, 71, 82] ++ [1] ++ toLE 2 nb ++ toLE 2 BUCKET_SIZE_IN_PAGES ++
    List.replicate 32 0 ++ toLE 8 p ++ List.replicate (254 * 8) 0

/-- `num_allocated_buckets` computed by the migration: the ceiling division
of the v6 anchor pages by the bucket size, cast `as u16`. -/
def migNumBuckets (m : Mem) : Nat :=
  (anchorPagesV6 m + (BUCKET_SIZE_IN_PAGES - 1)) / BUCKET_SIZE_IN_PAGES % 2 ^ 16

/-- `pages_in_allocated_buckets` computed by the migration: the `u16` product
`BUCKET_SIZE_IN_PAGES * num_allocated_buckets`, wrapping in release builds. -/
def migBucketPages (m : Mem) : Nat :=
  BUCKET_SIZE_IN_PAGES * migNumBuckets m % 2 ^ 16

/-- The grow argument `pages_in_allocated_buckets - anchor_memory.size()`:
wrapping `u64` subtraction in release builds. -/
def migGrowDelta (m : Mem) : Nat :=
  (migBucketPages m + (2 ^ 64 - anchorPagesV6 m % 2 ^ 64)) % 2 ^ 64

/-- The sequence of byte writes issued by `from_memory_v6_to_v7`, in program
order: the storage header with `version = 7` at offset 0, the memory-manager
header at page 1, and the bucket table after it.  (The `grow` call happens
between the first and second write and writes no bytes.) -/
def migWrites (m : Mem) : List (Nat × List Nat) :=
  [(0, encodeHeader { parseHeader m.bytes with version := 7 }),
    (WASM_PAGE_SIZE, encodeMMHeader (migNumBuckets m) (anchorPagesV6 m)),
    (WASM_PAGE_SIZE + BUCKETS_OFFSET, bucketTable (migNumBuckets m))]

/-- Apply one write of the migration to the backing memory. -/
def applyWrite (m : Mem) (w : Nat × List Nat) : Mem := memWrite m w.1 w.2

/-- The memory transformation performed by `from_memory_v6_to_v7` between the
two `from_memory` calls: header rewrite, grow, memory-manager header write,
bucket table write, in program order. -/
def migrateMem (m : Mem) : Mem :=
  applyWrite
    (applyWrite (growMem (applyWrite m ((migWrites m).getD 0 (0, [])))
        (migGrowDelta m))
      ((migWrites m).getD 1 (0, [])))
    ((migWrites m).getD 2 (0, []))

/-- `Storage::from_memory_v6_to_v7`: recover, return unchanged when already
at v7, trap on any version other than 6, otherwise rewrite the memory in
place and recover again. -/
def fromMemoryV6toV7 (m : Mem) : FmResult :=
  match fromMemory m with
  | .empty => .empty
  | .trap => .trap
  | .ok h _ _ =>
    if h.version = 7 then fromMemory m
    else if h.version ≠ 6 then .trap
    else fromMemory (migrateMem m)

instance {ε α : Type} [DecidableEq ε] [DecidableEq α] : DecidableEq (Except ε α) :=
  fun a b =>
    match a, b with
    | .error x, .error y =>
      if h : x = y then isTrue (by rw [h])
      else isFalse (fun hc => by injection hc; contradiction)
    | .error _, .ok _ => isFalse (fun hc => Except.noConfusion hc)
    | .ok _, .error _ => isFalse (fun hc => Except.noConfusion hc)
    | .ok x, .ok y =>
      if h : x = y then isTrue (by rw [h])
      else isFalse (fun hc => by injection hc; contradiction)

theorem saltOf_flush (st : StorageA) : saltOf (flush st) = saltOf st := by
  simp [saltOf, flush]

/-- A well-formed store used as a concrete state in counterexamples. -/
def stC6 : StorageA :=
  { header :=
      { magic := [73, 73, 67], version := 6, num_anchors := 0, id_range_lo := 100,
        id_range_hi := 200, entry_size := 4096, salt := List.replicate 32 0,
        first_entry_offset := 131072 }
    headerMem := { size := 2, bytes := fun _ => 0 }
    anchorMem := { size := 0, bytes := fun _ => 0 } }

/-- C6 counterexample: with `s1 = [0; 32]` (a perfectly valid 32-byte value)
on a fresh store, the first `update_salt` succeeds but leaves the salt unset,
so the second `update_salt` does not panic and `salt()` does not return the
value that was set. -/
theorem c6_counterexample :
    ((update_salt stC6 (List.replicate 32 0)).bind
        fun st1 => update_salt st1 (List.replicate 32 1)).isSome = true
    ∧ (update_salt stC6 (List.replicate 32 0)).map (fun st1 => saltOf st1) =
        some none := by
  decide

/-- C6 (amended): for every storage state and pair of 32-byte values, if the
first `update_salt(s1)` returns (rather than panicking) and `s1` is not the
all-zero salt, then a second `update_salt(s2)` panics, and `salt()` observed
after the first call returns the value `s1` that was set. -/
theorem c6_update_salt (st st1 : StorageA) (s1 s2 : List Nat)
    (hs1 : s1 ≠ List.replicate 32 0)
    (h1 : update_salt st s1 = some st1) :
    update_salt st1 s2 = none ∧ saltOf st1 = some s1 := by
  unfold update_salt at h1
  by_cases hset : (saltOf st).isSome
  · rw [if_pos hset] at h1
    exact absurd h1 (by simp)
  · rw [if_neg hset] at h1
    have hst1 : st1 = flush { st with header := { st.header with salt := s1 } } := by
      injection h1 with h2
      exact h2.symm
    have hsalt : saltOf st1 = some s1 := by
      rw [hst1, saltOf_flush]
      simp only [saltOf]
      rw [if_neg hs1]
    refine ⟨?_, hsalt⟩
    unfold update_salt
    rw [if_pos (by simp [hsalt])]

/-- C6 witness: the amended theorem applied to a fresh store and the all-one
salt. -/
theorem c6_update_salt_witness :
    update_salt (flush { stC6 with header :=
      { stC6.header with salt := List.replicate 32 1 } }) (List.replicate 32 2) = none
    ∧ saltOf (flush { stC6 with header :=
        { stC6.header with salt := List.replicate 32 1 } }) =
      some (List.replicate 32 1) :=
  c6_update_salt stC6 _ (List.replicate 32 1) (List.replicate 32 2)
    (by decide) rfl

/-- A state whose header has `id_range_hi < id_range_lo` (accepted unchanged
by `from_memory`, which validates nothing beyond magic and version). -/
def stA3 : StorageA :=
  { header :=
      { magic := [73, 73, 67], version := 6, num_anchors := 4,
        id_range_lo := 2 ^ 64 - 2, id_range_hi := 3, entry_size := 4096,
        salt := List.replicate 32 0, first_entry_offset := 131072 }
    headerMem := { size := 2, bytes := fun _ => 0 }
    anchorMem := { size := 0, bytes := fun _ => 0 } }

/-- A state at the `u32` boundary of `num_anchors`. -/
def stB3 : StorageA :=
  { header :=
      { magic := [73, 73, 67], version := 6, num_anchors := 2 ^ 32 - 1,
        id_range_lo := 0, id_range_hi := 2 ^ 64 - 1, entry_size := 4096,
        salt := List.replicate 32 0, first_entry_offset := 131072 }
    headerMem := { size := 2, bytes := fun _ => 0 }
    anchorMem := { size := 0, bytes := fun _ => 0 } }

/-- C3 counterexample: on `stA3` the claim's precondition
`num_anchors < id_range_hi − id_range_lo` fails (the difference is 0), so the
claim demands `None` with the state unchanged, but the wrapping `u64` sum
`id_range_lo + num_anchors` lands back inside the range and the code
allocates anchor 2; on `stB3` the claim demands an increment by exactly 1,
but `num_anchors` wraps from `2^32 − 1` to 0. -/
theorem c3_counterexample :
    (allocate_anchor stA3).1 = some 2
    ∧ stA3.header.id_range_hi - stA3.header.id_range_lo = 0
    ∧ ¬ stA3.header.num_anchors < 0
    ∧ (allocate_anchor stB3).1 = some (2 ^ 32 - 1)
    ∧ stB3.header.num_anchors < stB3.header.id_range_hi - stB3.header.id_range_lo
    ∧ (allocate_anchor stB3).2.header.num_anchors = 0
    ∧ stB3.header.num_anchors + 1 ≠ 0 := by
  refine ⟨rfl, by decide, by decide, rfl, by decide, rfl, by decide⟩

/-- C3 (amended): for every storage state whose header satisfies
`id_range_lo + num_anchors < 2^64` and `num_anchors + 1 < 2^32` (so neither
machine addition wraps), if `num_anchors < id_range_hi − id_range_lo` then
`allocate_anchor` returns `Some (id_range_lo + num_anchors)` with
`num_anchors` incremented by exactly 1 and the header flushed, and otherwise
it returns `None` with the state unchanged. -/
theorem c3_allocate_anchor (st : StorageA)
    (h64 : st.header.id_range_lo + st.header.num_anchors < 2 ^ 64)
    (h32 : st.header.num_anchors + 1 < 2 ^ 32) :
    (st.header.num_anchors < st.header.id_range_hi - st.header.id_range_lo →
      allocate_anchor st =
        (some (st.header.id_range_lo + st.header.num_anchors),
          flush { st with header :=
            { st.header with num_anchors := st.header.num_anchors + 1 } }))
    ∧ (st.header.id_range_hi - st.header.id_range_lo ≤ st.header.num_anchors →
      allocate_anchor st = (none, st)) := by
  constructor
  · intro hlt
    have hmod : (st.header.id_range_lo + st.header.num_anchors) % 2 ^ 64 =
        st.header.id_range_lo + st.header.num_anchors := Nat.mod_eq_of_lt h64
    have hmod2 : (st.header.num_anchors + 1) % 2 ^ 32 =
        st.header.num_anchors + 1 := Nat.mod_eq_of_lt h32
    simp only [allocate_anchor, hmod, hmod2]
    rw [if_neg (by omega)]
  · intro hge
    have hmod : (st.header.id_range_lo + st.header.num_anchors) % 2 ^ 64 =
        st.header.id_range_lo + st.header.num_anchors := Nat.mod_eq_of_lt h64
    simp only [allocate_anchor, hmod]
    rw [if_pos (by omega)]

/-- C3 witness: the amended theorem applied to a fresh store with range
`[100, 200)` and no anchors. -/
theorem c3_allocate_anchor_witness :
    allocate_anchor stC6 =
      (some 100,
        flush { stC6 with header := { stC6.header with num_anchors := 1 } }) := by
  have h := (c3_allocate_anchor stC6 (by decide) (by decide)).1 (by decide)
  simpa using h

/-- A state whose header has `entry_size = 0` (representable in the `u16`
field and accepted unchanged by `from_memory`). -/
def stC5 : StorageA :=
  { header :=
      { magic := [73, 73, 67], version := 6, num_anchors := 0, id_range_lo := 5,
        id_range_hi := 5, entry_size := 0, salt := List.replicate 32 0,
        first_entry_offset := 131072 }
    headerMem := { size := 2, bytes := fun _ => 0 }
    anchorMem := { size := 0, bytes := fun _ => 0 } }

/-- C5 counterexample: on a state with `entry_size = 0` and no anchors, the
call `set_anchor_number_range((5, 5))` violates none of the claim's abort
conditions (`hi' < lo'` fails, `hi' − lo' = 0` exceeds no `max_entries`
value, and `num_anchors = 0`), so the claim requires the bounds to be set —
but the code aborts, because `max_entries` divides by `entry_size = 0`. -/
theorem c5_counterexample :
    (set_anchor_number_range stC5 5 5).isNone = true
    ∧ ¬ (5 : Nat) < 5
    ∧ stC5.header.num_anchors = 0 := by
  decide

/-- C5 (amended): for every storage state with `entry_size ≥ 1` (so that the
`max_entries` division is defined), `set_anchor_number_range((lo', hi'))`
aborts exactly when `hi' < lo'`, or `hi' − lo' > max_entries`, or anchors
exist and (`lo' ≠ id_range_lo` or `hi' − lo' < num_anchors`); in every other
case it sets the two bounds and flushes the header. -/
theorem c5_set_anchor_number_range (st : StorageA) (lo hi : Nat)
    (hes : 1 ≤ st.header.entry_size) :
    (set_anchor_number_range st lo hi = none ↔
      hi < lo ∨ maxEntries st.header < hi - lo ∨
        (0 < st.header.num_anchors ∧
          (st.header.id_range_lo ≠ lo ∨ hi - lo < st.header.num_anchors)))
    ∧ (¬ (hi < lo ∨ maxEntries st.header < hi - lo ∨
          (0 < st.header.num_anchors ∧
            (st.header.id_range_lo ≠ lo ∨ hi - lo < st.header.num_anchors))) →
      set_anchor_number_range st lo hi =
        some (flush { st with header :=
          { st.header with id_range_lo := lo, id_range_hi := hi } })) := by
  have hz : ¬ st.header.entry_size = 0 := by omega
  constructor
  · unfold set_anchor_number_range
    rw [if_neg hz]
    split_ifs with h1 h2 h3 h4
    · simp [h1]
    · simp only [true_iff]
      exact Or.inr (Or.inl h2)
    · simp only [true_iff]
      exact Or.inr (Or.inr ⟨h3.1, Or.inl h3.2⟩)
    · simp only [true_iff]
      exact Or.inr (Or.inr ⟨h4.1, Or.inr h4.2⟩)
    · simp only [iff_false_intro (Option.some_ne_none _), false_iff]
      push_neg
      refine ⟨by omega, by omega, fun hn => ⟨?_, ?_⟩⟩
      · by_contra hne
        exact h3 ⟨hn, hne⟩
      · by_contra hlt
        exact h4 ⟨hn, by omega⟩
  · intro hcond
    push_neg at hcond
    obtain ⟨hc1, hc2, hc3⟩ := hcond
    unfold set_anchor_number_range
    rw [if_neg (by omega), if_neg hz, if_neg (by omega)]
    rw [if_neg, if_neg]
    · intro hcon
      obtain ⟨hn, hlt⟩ := hcon
      exact absurd hlt (by have := (hc3 hn).2; omega)
    · intro hcon
      obtain ⟨hn, hne⟩ := hcon
      exact hne ((hc3 hn).1)

/-- C5 witness: the amended theorem applied to a fresh store, shrinking the
range to `[10, 20)`. -/
theorem c5_set_anchor_number_range_witness :
    set_anchor_number_range stC6 10 20 =
      some (flush { stC6 with header :=
        { stC6.header with id_range_lo := 10, id_range_hi := 20 } }) :=
  (c5_set_anchor_number_range stC6 10 20 (by decide)).2 (by decide)

/-- C10: `from_memory` returns `None` exactly on an empty memory; on a
non-empty memory it traps exactly when the decoded header has a bad magic or
a version outside `{6, 7}`; and otherwise it returns the store carrying the
header fields exactly as read (version 6 selects the flat flavour, version 7
the managed flavour), with no validation of the remaining fields — so
headers violating the cross-cutting invariants are accepted unchanged. -/
theorem c10_from_memory (m : Mem) :
    (fromMemory m = .empty ↔ m.size = 0)
    ∧ (1 ≤ m.size →
        (fromMemory m = .trap ↔
          ¬ ((parseHeader m.bytes).magic = [73, 73, 67] ∧
            ((parseHeader m.bytes).version = 6 ∨
              (parseHeader m.bytes).version = 7))))
    ∧ (1 ≤ m.size → (parseHeader m.bytes).magic = [73, 73, 67] →
        (parseHeader m.bytes).version = 6 →
        fromMemory m = .ok (parseHeader m.bytes) false m)
    ∧ (1 ≤ m.size → (parseHeader m.bytes).magic = [73, 73, 67] →
        (parseHeader m.bytes).version = 7 →
        fromMemory m = .ok (parseHeader m.bytes) true m) := by
  refine ⟨?_, ?_, ?_, ?_⟩
  · constructor
    · intro he
      by_contra hne
      unfold fromMemory at he
      rw [if_neg (by omega)] at he
      split_ifs at he
    · intro h0
      unfold fromMemory
      rw [if_pos (by omega)]
  · intro hsz
    constructor
    · intro ht hcon
      obtain ⟨hm, hv⟩ := hcon
      unfold fromMemory at ht
      rw [if_neg (by omega), if_neg (by simp [hm])] at ht
      rcases hv with hv | hv
      · rw [if_neg (by omega), if_neg (by omega), if_pos hv] at ht
        exact FmResult.noConfusion ht
      · rw [if_neg (by omega), if_neg (by omega), if_neg (by omega),
          if_pos hv] at ht
        exact FmResult.noConfusion ht
    · intro hcon
      unfold fromMemory
      rw [if_neg (by omega)]
      by_cases hm : (parseHeader m.bytes).magic = [73, 73, 67]
      · rw [if_neg (by simp [hm])]
        have hv : ¬ ((parseHeader m.bytes).version = 6 ∨
            (parseHeader m.bytes).version = 7) := fun hv => hcon ⟨hm, hv⟩
        push_neg at hv
        obtain ⟨hv6, hv7⟩ := hv
        by_cases h6 : (parseHeader m.bytes).version < 6
        · rw [if_pos h6]
        · rw [if_neg h6, if_pos (show ¬ (6 ≤ (parseHeader m.bytes).version ∧
            (parseHeader m.bytes).version ≤ 7) by omega)]
      · rw [if_pos (by simp [hm])]
  · intro hsz hmagic hver
    unfold fromMemory
    rw [if_neg (by omega), if_neg (by simp [hmagic]), if_neg (by omega),
      if_neg (by omega), if_pos hver]
  · intro hsz hmagic hver
    unfold fromMemory
    rw [if_neg (by omega), if_neg (by simp [hmagic]), if_neg (by omega),
      if_neg (by omega), if_neg (by omega), if_pos hver]

/-- A one-page backing memory holding a serialized valid v6 header with
range `[100, 200)` and no anchors. -/
def mW10 : Mem :=
  { size := 1
    bytes := fun i =>
      (encodeHeader
        { magic := [73, 73, 67], version := 6, num_anchors := 0,
          id_range_lo := 100, id_range_hi := 200, entry_size := 4096,
          salt := List.replicate 32 0, first_entry_offset := 131072 }).getD i 0 }

/-- C10 witness: the characterization applied to the concrete one-page v6
memory. -/
theorem c10_from_memory_witness :
    fromMemory mW10 = .ok (parseHeader mW10.bytes) false mW10 :=
  (c10_from_memory mW10).2.2.1 (by decide) (by decide) (by decide)

theorem candid_limit_eq (h : Header) (h2 : 2 ≤ h.entry_size)
    (h16 : h.entry_size < 2 ^ 16) :
    candid_entry_size_limit h = h.entry_size - 2 := by
  unfold candid_entry_size_limit
  have hsplit : h.entry_size + (2 ^ 64 - 2) = (h.entry_size - 2) + 2 ^ 64 := by
    omega
  rw [hsplit, Nat.add_mod_right, Nat.mod_eq_of_lt (by omega)]

theorem write_anchor_eq (st : StorageA) (n : Nat) (buf : List Nat) :
    write_anchor st n buf =
      if n < st.header.id_range_lo ∨ st.header.id_range_hi ≤ n then
        some (.error (.anchorNumberOutOfRange n st.header.id_range_lo
          st.header.id_range_hi), st)
      else if st.header.num_anchors ≤ (n - st.header.id_range_lo) % 2 ^ 32 then
        some (.error (.badAnchorNumber n), st)
      else if candid_entry_size_limit st.header < buf.length then
        some (.error (.entrySizeLimitExceeded buf.length), st)
      else if ((n - st.header.id_range_lo) % 2 ^ 32) * st.header.entry_size +
          (2 + buf.length) ≤ anchorCapPages st.header * WASM_PAGE_SIZE then
        some (.ok (),
          { st with
            anchorMem := memWrite st.anchorMem
                (((n - st.header.id_range_lo) % 2 ^ 32) * st.header.entry_size)
                (toLE 2 buf.length ++ buf) })
      else none := by
  unfold write_anchor anchor_number_to_record write_entry_bytes record_address
  split_ifs
  all_goals try rfl
  all_goals rename_i hwin
  all_goals simp [hwin]
  all_goals try simp only [show (2 : Nat) ^ 32 = 4294967296 from rfl] at *
  all_goals omega

/-- A state whose range spans more than `2^32` anchor numbers. -/
def stX4 : StorageA :=
  { header :=
      { magic := [73, 73, 67], version := 6, num_anchors := 1, id_range_lo := 0,
        id_range_hi := 2 ^ 33, entry_size := 4096,
        salt := List.replicate 32 0, first_entry_offset := 131072 }
    headerMem := { size := 2, bytes := fun _ => 0 }
    anchorMem := { size := 0, bytes := fun _ => 0 } }

/-- A state whose header has `entry_size = 0`. -/
def stY4 : StorageA :=
  { header :=
      { magic := [73, 73, 67], version := 6, num_anchors := 1, id_range_lo := 0,
        id_range_hi := 10, entry_size := 0,
        salt := List.replicate 32 0, first_entry_offset := 131072 }
    headerMem := { size := 2, bytes := fun _ => 0 }
    anchorMem := { size := 0, bytes := fun _ => 0 } }

/-- C4 counterexample: on `stX4` (range wider than `2^32`), anchor number
`2^32` is in range but unallocated (`num_anchors = 1 ≤ 2^32 − 0`), so the
claim requires `Err(BadAnchorNumber)`; the `as u32` cast truncates the slot
index to 0 and the write succeeds.  On `stY4` (`entry_size = 0`), a 1-byte
payload exceeds `entry_size − 2`, so the claim requires
`Err(EntrySizeLimitExceeded)`; the wrapping `usize` subtraction makes the
limit huge and the write succeeds. -/
theorem c4_counterexample :
    (write_anchor stX4 (2 ^ 32) []).map Prod.fst = some (.ok ())
    ∧ stX4.header.id_range_lo ≤ 2 ^ 32
    ∧ 2 ^ 32 < stX4.header.id_range_hi
    ∧ stX4.header.num_anchors ≤ 2 ^ 32 - stX4.header.id_range_lo
    ∧ (write_anchor stY4 0 [5]).map Prod.fst = some (.ok ())
    ∧ stY4.header.entry_size - 2 < ([5] : List Nat).length := by
  refine ⟨rfl, by decide, by decide, by decide, rfl, by decide⟩

/-- C4 (amended): for every storage state whose header satisfies
`id_range_hi − id_range_lo ≤ 2^32` (so the `as u32` slot cast is lossless)
and `2 ≤ entry_size` (so `entry_size − 2` does not wrap), `write(n, a)`
returns `Err(AnchorNumberOutOfRange)` iff `n` is outside
`[id_range_lo, id_range_hi)`; otherwise `Err(BadAnchorNumber)` iff
`n − id_range_lo ≥ num_anchors`; otherwise `Err(EntrySizeLimitExceeded)` iff
the encoded payload length exceeds `entry_size − 2`; and on every error the
store (header and memories) is left untouched. -/
theorem c4_write_errors (st : StorageA) (n : Nat) (buf : List Nat)
    (hr32 : st.header.id_range_hi - st.header.id_range_lo ≤ 2 ^ 32)
    (hes : 2 ≤ st.header.entry_size) (hes16 : st.header.entry_size < 2 ^ 16) :
    (write_anchor st n buf =
        some (.error (.anchorNumberOutOfRange n st.header.id_range_lo
          st.header.id_range_hi), st) ↔
      n < st.header.id_range_lo ∨ st.header.id_range_hi ≤ n)
    ∧ (st.header.id_range_lo ≤ n → n < st.header.id_range_hi →
        (write_anchor st n buf = some (.error (.badAnchorNumber n), st) ↔
          st.header.num_anchors ≤ n - st.header.id_range_lo))
    ∧ (st.header.id_range_lo ≤ n → n < st.header.id_range_hi →
        n - st.header.id_range_lo < st.header.num_anchors →
        (write_anchor st n buf =
            some (.error (.entrySizeLimitExceeded buf.length), st) ↔
          st.header.entry_size - 2 < buf.length))
    ∧ ∀ e st', write_anchor st n buf = some (.error e, st') → st' = st := by
  rw [write_anchor_eq st n buf, candid_limit_eq st.header hes hes16]
  refine ⟨?_, ?_, ?_, ?_⟩
  · split_ifs with h1 h2 h3 h4 <;> simp [h1]
  · intro hlo hhi
    have hmod : (n - st.header.id_range_lo) % 2 ^ 32 = n - st.header.id_range_lo := by
      apply Nat.mod_eq_of_lt
      omega
    rw [if_neg (by omega), hmod]
    split_ifs with h2 h3 h4 <;> simp [h2]
  · intro hlo hhi halloc
    have hmod : (n - st.header.id_range_lo) % 2 ^ 32 = n - st.header.id_range_lo := by
      apply Nat.mod_eq_of_lt
      omega
    rw [if_neg (by omega), hmod, if_neg (by omega)]
    split_ifs with h3 h4 <;> simp [h3]
  · intro e st'
    split_ifs <;> intro h <;> simp_all

/-- C4 witness: the amended theorem applied to a fresh store with range
`[100, 200)` and no anchors: anchor number 150 is in range but unallocated. -/
theorem c4_write_errors_witness :
    write_anchor stC6 150 [] = some (.error (.badAnchorNumber 150), stC6) :=
  ((c4_write_errors stC6 150 [] (by decide) (by decide)
    (by decide)).2.1 (by decide) (by decide)).mpr (by decide)

theorem memWrite_read_window (m : Mem) (addr : Nat) (buf : List Nat) (c k : Nat)
    (h : c + k ≤ buf.length) :
    (List.ofFn fun i : Fin k => (memWrite m addr buf).bytes (addr + c + i)) =
      List.ofFn fun i : Fin k => buf.getD (c + i) 0 := by
  refine congrArg List.ofFn (funext fun i => ?_)
  have hik := i.isLt
  rw [memWrite_bytes_in _ _ _ _ (by omega) (by omega)]
  congr 1
  omega

/-- A state whose header has `entry_size = 1`, with observable anchor-memory
content. -/
def stX9 : StorageA :=
  { header :=
      { magic := [73, 73, 67], version := 6, num_anchors := 5, id_range_lo := 0,
        id_range_hi := 10, entry_size := 1, salt := List.replicate 32 0,
        first_entry_offset := 131072 }
    headerMem := { size := 2, bytes := fun _ => 0 }
    anchorMem := { size := 1, bytes := fun _ => 7 } }

/-- A state whose range spans more than `2^32` anchor numbers, with
observable anchor-memory content. -/
def stY9 : StorageA :=
  { header :=
      { magic := [73, 73, 67], version := 6, num_anchors := 1, id_range_lo := 0,
        id_range_hi := 2 ^ 33, entry_size := 4096, salt := List.replicate 32 0,
        first_entry_offset := 131072 }
    headerMem := { size := 2, bytes := fun _ => 0 }
    anchorMem := { size := 1, bytes := fun _ => 7 } }

/-- C9 counterexample: on `stX9` (`entry_size = 1`), the successful write of
anchor 0 overwrites byte 0 of slot 1 (a slot other than `n − id_range_lo`)
within `[0, payload_limit + 2)`; on `stY9` (range wider than `2^32`), the
successful write of anchor `2^32` overwrites byte 0 of slot 0, while the
claim protects every slot other than `n − id_range_lo = 2^32`. -/
theorem c9_counterexample :
    (write_anchor stX9 0 []).map Prod.fst = some (.ok ())
    ∧ (write_anchor stX9 0 []).map
        (fun p => p.2.anchorMem.bytes (1 * stX9.header.entry_size + 0)) = some 0
    ∧ stX9.anchorMem.bytes (1 * stX9.header.entry_size + 0) = 7
    ∧ (1 : Nat) ≠ 0 - stX9.header.id_range_lo
    ∧ (0 : Nat) < stX9.header.entry_size - 2 + 2
    ∧ (write_anchor stY9 (2 ^ 32) []).map Prod.fst = some (.ok ())
    ∧ (write_anchor stY9 (2 ^ 32) []).map
        (fun p => p.2.anchorMem.bytes (0 * stY9.header.entry_size + 0)) = some 0
    ∧ stY9.anchorMem.bytes (0 * stY9.header.entry_size + 0) = 7
    ∧ (0 : Nat) ≠ 2 ^ 32 - stY9.header.id_range_lo := by
  refine ⟨rfl, by decide, by decide, by decide, by decide, rfl, by decide,
    by decide, by decide⟩

/-- C9 (amended): for every storage state with `2 ≤ entry_size` and every
successful `write(n, a)`, the bytes of every anchor slot other than slot
`(n − id_range_lo) % 2^32` (the code's `as u32` slot index) are unchanged
within `[0, payload_limit + 2)` of that slot: the write touches only the
2-byte length prefix and payload bytes of its own slot. -/
theorem c9_write_frame (st st' : StorageA) (n : Nat) (buf : List Nat)
    (hes : 2 ≤ st.header.entry_size) (hes16 : st.header.entry_size < 2 ^ 16)
    (hok : write_anchor st n buf = some (.ok (), st'))
    (r i : Nat) (hr : r ≠ (n - st.header.id_range_lo) % 2 ^ 32)
    (hi : i < candid_entry_size_limit st.header + 2) :
    st'.anchorMem.bytes (r * st.header.entry_size + i) =
      st.anchorMem.bytes (r * st.header.entry_size + i) := by
  have hlim : candid_entry_size_limit st.header = st.header.entry_size - 2 :=
    candid_limit_eq _ hes hes16
  rw [write_anchor_eq st n buf] at hok
  split_ifs at hok with h1 h2 h3 h4
  · exact absurd (congrArg Prod.fst (Option.some.inj hok)) (by simp)
  · exact absurd (congrArg Prod.fst (Option.some.inj hok)) (by simp)
  · exact absurd (congrArg Prod.fst (Option.some.inj hok)) (by simp)
  have hst : ({ st with
      anchorMem := memWrite st.anchorMem
          ((n - st.header.id_range_lo) % 2 ^ 32 * st.header.entry_size)
          (toLE 2 buf.length ++ buf) } : StorageA) = st' :=
    congrArg Prod.snd (Option.some.inj hok)
  rw [← hst]
  show (memWrite st.anchorMem
      ((n - st.header.id_range_lo) % 2 ^ 32 * st.header.entry_size)
      (toLE 2 buf.length ++ buf)).bytes _ = _
  have hlen : buf.length ≤ st.header.entry_size - 2 := by
    rw [hlim] at h3
    omega
  have hlist : (toLE 2 buf.length ++ buf).length = 2 + buf.length := by
    simp [toLE_length]
  have hi' : i < st.header.entry_size := by
    rw [hlim] at hi
    omega
  rcases Nat.lt_or_ge r ((n - st.header.id_range_lo) % 2 ^ 32) with hlt | hge
  · apply memWrite_bytes_lt
    have hmul : (r + 1) * st.header.entry_size ≤
        (n - st.header.id_range_lo) % 2 ^ 32 * st.header.entry_size :=
      Nat.mul_le_mul_right _ (by omega)
    have hstep : (r + 1) * st.header.entry_size =
        r * st.header.entry_size + st.header.entry_size := by
      rw [Nat.succ_mul]
    omega
  · have hgt : (n - st.header.id_range_lo) % 2 ^ 32 < r := by omega
    apply memWrite_bytes_ge
    rw [hlist]
    have hmul : ((n - st.header.id_range_lo) % 2 ^ 32 + 1) *
        st.header.entry_size ≤ r * st.header.entry_size :=
      Nat.mul_le_mul_right _ (by omega)
    have hstep : ((n - st.header.id_range_lo) % 2 ^ 32 + 1) *
        st.header.entry_size =
        (n - st.header.id_range_lo) % 2 ^ 32 * st.header.entry_size +
          st.header.entry_size := by
      rw [Nat.succ_mul]
    omega

/-- A healthy store with three allocated anchors and observable
anchor-memory content. -/
def stW9 : StorageA :=
  { header :=
      { magic := [73, 73, 67], version := 6, num_anchors := 3,
        id_range_lo := 100, id_range_hi := 200, entry_size := 4096,
        salt := List.replicate 32 0, first_entry_offset := 131072 }
    headerMem := { size := 2, bytes := fun _ => 0 }
    anchorMem := { size := 1, bytes := fun _ => 5 } }

/-- The state produced by writing payload `[9]` to anchor 101 (slot 1) of
`stW9`. -/
def stW9' : StorageA :=
  { stW9 with
    anchorMem := memWrite stW9.anchorMem (record_address stW9.header 1)
        (toLE 2 1 ++ [9]) }

/-- C9 witness: writing anchor 101 (slot 1) leaves byte 0 of slot 0
unchanged. -/
theorem c9_write_frame_witness :
    stW9'.anchorMem.bytes (0 * stW9.header.entry_size + 0) =
      stW9.anchorMem.bytes (0 * stW9.header.entry_size + 0) :=
  c9_write_frame stW9 stW9' 101 [9] (by decide) (by decide) rfl 0 0 (by decide)
    (by decide)

theorem window_extract_suffix (P X : List Nat) (k c : Nat) (hc : P.length = c)
    (hx : X.length = k) :
    (List.ofFn fun i : Fin k => (P ++ X).getD (c + i) 0) = X := by
  have hpt : ∀ i : Fin k, (P ++ X).getD (c + i) 0 = X.getD i 0 := by
    intro i
    rw [List.getD_append_right _ _ _ _ (by omega)]
    congr 1
    omega
  calc (List.ofFn fun i : Fin k => (P ++ X).getD (c + i) 0)
      = List.ofFn fun i : Fin k => X.getD i 0 := congrArg List.ofFn (funext hpt)
  _ = X := ofFn_getD_self X k hx

theorem candid_limit_ge (h : Header) (h16 : h.entry_size < 2 ^ 16) :
    h.entry_size - 2 ≤ candid_entry_size_limit h := by
  by_cases h2 : 2 ≤ h.entry_size
  · rw [candid_limit_eq h h2 h16]
  · have h0 : h.entry_size - 2 = 0 := by omega
    omega

theorem anchor_number_to_record_ok (h : Header) (n : Nat)
    (h1 : ¬ (n < h.id_range_lo ∨ h.id_range_hi ≤ n))
    (h2 : ¬ h.num_anchors ≤ (n - h.id_range_lo) % 2 ^ 32) :
    anchor_number_to_record h n = .ok ((n - h.id_range_lo) % 2 ^ 32) := by
  unfold anchor_number_to_record
  rw [if_neg h1, if_neg h2]

theorem read_with_eval {α : Type} (dec : List Nat → Option α) (st : StorageA)
    (n r : Nat) (b : List Nat) (a : α)
    (h1 : anchor_number_to_record st.header n = .ok r)
    (h2 : read_entry_bytes st r = some b)
    (h3 : dec b = some a) :
    read_with dec st n = some (.ok a) := by
  unfold read_with
  rw [h1]
  simp only [h2, h3]

theorem read_entry_bytes_after_write (st : StorageA) (r : Nat) (buf : List Nat)
    (hlim : buf.length ≤ candid_entry_size_limit st.header)
    (hlen16 : buf.length < 2 ^ 16) :
    read_entry_bytes
      { st with
        anchorMem := memWrite st.anchorMem (r * st.header.entry_size)
            (toLE 2 buf.length ++ buf) } r = some buf := by
  have hLlen : (toLE 2 buf.length ++ buf).length = 2 + buf.length := by
    simp [toLE_length]
  have hcov := memWrite_size_covers st.anchorMem (r * st.header.entry_size)
    (toLE 2 buf.length ++ buf)
  have hfl : fromLE (toLE 2 buf.length) = buf.length := by
    rw [fromLE_toLE]
    have h2 : (256 : Nat) ^ 2 = 65536 := by norm_num
    apply Nat.mod_eq_of_lt
    omega
  have hr1 : readExact
      (memWrite st.anchorMem (r * st.header.entry_size) (toLE 2 buf.length ++ buf))
      (r * st.header.entry_size) 2 = some (toLE 2 buf.length) := by
    unfold readExact
    rw [if_pos (by omega)]
    congr 1
    have hw := memWrite_read_window st.anchorMem (r * st.header.entry_size)
      (toLE 2 buf.length ++ buf) 0 2 (by omega)
    simp only [Nat.add_zero] at hw
    rw [hw]
    exact window_extract [] (toLE 2 buf.length) buf 2 0 rfl (toLE_length 2 _)
  have hr2 : readExact
      (memWrite st.anchorMem (r * st.header.entry_size) (toLE 2 buf.length ++ buf))
      (r * st.header.entry_size + 2) buf.length = some buf := by
    unfold readExact
    rw [if_pos (by omega)]
    congr 1
    have hw := memWrite_read_window st.anchorMem (r * st.header.entry_size)
      (toLE 2 buf.length ++ buf) 2 buf.length (by omega)
    rw [hw]
    exact window_extract_suffix (toLE 2 buf.length) buf buf.length 2
      (toLE_length 2 _) rfl
  unfold read_entry_bytes record_address
  simp only [hr1, hfl]
  rw [if_neg (by omega)]
  exact hr2

/-- A state whose header has `num_anchors` larger than the range width
(accepted unchanged by `from_memory`). -/
def stX1 : StorageA :=
  { header :=
      { magic := [73, 73, 67], version := 6, num_anchors := 10, id_range_lo := 0,
        id_range_hi := 5, entry_size := 4096, salt := List.replicate 32 0,
        first_entry_offset := 131072 }
    headerMem := { size := 2, bytes := fun _ => 0 }
    anchorMem := { size := 1, bytes := fun _ => 0 } }

/-- A state whose header is accepted unchanged by `from_memory` but whose
anchor count overflows the anchor memory's window: slot `2^31` (entry size
4096 bytes) starts beyond the `MAX_WASM_PAGES − 2` pages the restricted
memory can ever provide, so writing it cannot grow the view and panics. -/
def stZ1 : StorageA :=
  { header :=
      { magic := [73, 73, 67], version := 6, num_anchors := 2 ^ 31 + 1,
        id_range_lo := 0, id_range_hi := 2 ^ 33, entry_size := 4096,
        salt := List.replicate 32 0, first_entry_offset := 131072 }
    headerMem := { size := 2, bytes := fun _ => 0 }
    anchorMem := { size := 1, bytes := fun _ => 0 } }

/-- C1 counterexample: on `stX1` (`num_anchors = 10`, range `[0, 5)`), anchor
number 7 satisfies the claim's allocation hypothesis
(`id_range_lo ≤ 7` and `7 − id_range_lo < num_anchors`) and the empty payload
fits, yet `write` fails with `AnchorNumberOutOfRange`, so the write/read
sequence cannot return `Ok(a)`; and on `stZ1` (`num_anchors = 2^31 + 1`,
range `[0, 2^33)`, `entry_size = 4096`) anchor number `2^31` satisfies the
claim's hypothesis — even strengthened with `n < id_range_hi` — yet its slot
lies beyond the anchor memory's window, the write's grow fails and the call
panics (`none`) instead of returning `Ok`. -/
theorem c1_counterexample :
    (write_anchor stX1 7 []).map Prod.fst =
      some (.error (.anchorNumberOutOfRange 7 stX1.header.id_range_lo
        stX1.header.id_range_hi))
    ∧ stX1.header.id_range_lo ≤ 7
    ∧ 7 - stX1.header.id_range_lo < stX1.header.num_anchors
    ∧ ([] : List Nat).length ≤ stX1.header.entry_size - 2
    ∧ (write_anchor stZ1 (2 ^ 31) []).isNone = true
    ∧ stZ1.header.id_range_lo ≤ 2 ^ 31
    ∧ 2 ^ 31 < stZ1.header.id_range_hi
    ∧ 2 ^ 31 - stZ1.header.id_range_lo < stZ1.header.num_anchors
    ∧ ([] : List Nat).length ≤ stZ1.header.entry_size - 2 := by
  refine ⟨rfl, by decide, by decide, by decide, rfl, by decide, by decide,
    by decide, by decide⟩

/-- C1 (amended): for every storage state, every anchor number `n` with
`id_range_lo ≤ n`, `n < id_range_hi` and `n − id_range_lo < num_anchors`,
and every anchor value whose candid encoding `buf` fits in `entry_size − 2`
bytes, provided the record's byte range (slot index times `entry_size`, plus
the 2-byte length prefix and the payload) lies within the anchor memory's
window so the write's growth succeeds, `write(n, a)` succeeds and a
following `read(n)` returns `Ok(a)` — with the candid encoder/decoder an
opaque inverse pair (`dec buf = some a`). -/
theorem c1_write_read_roundtrip {α : Type} (dec : List Nat → Option α) (a : α)
    (st : StorageA) (n : Nat) (buf : List Nat)
    (hes16 : st.header.entry_size < 2 ^ 16)
    (hdec : dec buf = some a)
    (hlo : st.header.id_range_lo ≤ n)
    (hhi : n < st.header.id_range_hi)
    (halloc : n - st.header.id_range_lo < st.header.num_anchors)
    (hfit : buf.length ≤ st.header.entry_size - 2)
    (hwin : ((n - st.header.id_range_lo) % 2 ^ 32) * st.header.entry_size +
        (2 + buf.length) ≤ anchorCapPages st.header * WASM_PAGE_SIZE) :
    (write_anchor st n buf).map Prod.fst = some (.ok ())
    ∧ (write_anchor st n buf).bind (fun p => read_with dec p.2 n) =
        some (.ok a) := by
  have hmodle : (n - st.header.id_range_lo) % 2 ^ 32 ≤ n - st.header.id_range_lo :=
    Nat.mod_le _ _
  have hlim : buf.length ≤ candid_entry_size_limit st.header :=
    le_trans hfit (candid_limit_ge st.header hes16)
  have hlen16 : buf.length < 2 ^ 16 := by omega
  have hwa := write_anchor_eq st n buf
  rw [if_neg (by omega), if_neg (by omega), if_neg (by omega),
    if_pos hwin] at hwa
  refine ⟨by rw [hwa]; rfl, ?_⟩
  rw [hwa]
  show read_with dec _ n = some (.ok a)
  exact read_with_eval dec _ n ((n - st.header.id_range_lo) % 2 ^ 32) buf a
    (anchor_number_to_record_ok st.header n (by omega) (by omega))
    (read_entry_bytes_after_write st ((n - st.header.id_range_lo) % 2 ^ 32) buf
      hlim hlen16) hdec

/-- The decoder used in the C1 witness: the inverse of an encoder sending 9
to `[1, 2, 3]`. -/
def decW1 : List Nat → Option Nat := fun l => if l = [1, 2, 3] then some 9 else none

/-- C1 witness: the round trip on a healthy store, anchor 101, payload
`[1, 2, 3]`. -/
theorem c1_write_read_roundtrip_witness :
    (write_anchor stW9 101 [1, 2, 3]).map Prod.fst = some (.ok ())
    ∧ (write_anchor stW9 101 [1, 2, 3]).bind
        (fun p => read_with decW1 p.2 101) = some (.ok 9) :=
  c1_write_read_roundtrip decW1 9 stW9 101 [1, 2, 3] (by decide) (by decide)
    (by decide) (by decide) (by decide) (by decide) (by decide)

/-- C7: evaluated on a concrete v6 memory, the migration's write sequence
(`migWrites`, in program order, interleaved with the single `grow`) starts
with the storage-header write at offset 0 whose version byte (offset 3) is
already 7, and only afterwards writes the memory-manager header at page 1 and
the bucket table — the opposite of the order the claim states. -/
theorem c7_version_write_order :
    migrateMem mW10 =
      applyWrite
        (applyWrite
          (growMem (applyWrite mW10 ((migWrites mW10).getD 0 (0, [])))
            (migGrowDelta mW10))
          ((migWrites mW10).getD 1 (0, [])))
        ((migWrites mW10).getD 2 (0, []))
    ∧ ((migWrites mW10).getD 0 (0, [])).1 = 0
    ∧ ((migWrites mW10).getD 0 (0, [])).2.getD 3 0 = 7
    ∧ ((migWrites mW10).getD 1 (0, [])).1 = WASM_PAGE_SIZE
    ∧ ((migWrites mW10).getD 2 (0, [])).1 = WASM_PAGE_SIZE + BUCKETS_OFFSET
    ∧ (parseHeader mW10.bytes).version = 6 := by
  refine ⟨rfl, by decide, by decide, by decide, by decide, by decide⟩

/-- The header of the v6 memory used as the C8 failing input. -/
def hW8 : Header :=
  { magic := [73, 73, 67], version := 6, num_anchors := 0, id_range_lo := 100,
    id_range_hi := 200, entry_size := 4096, salt := List.replicate 32 0,
    first_entry_offset := 131072 }

/-- A v6 backing memory of 65411 pages (65409 anchor pages,
about 4.3 GiB). -/
def mW8 : Mem :=
  { size := 65411, bytes := fun i => (encodeHeader hW8).getD i 0 }

/-- C8: at 65409 anchor pages the migration computes
`num_allocated_buckets = 512 = ⌈65409 / 128⌉`, but the `u16` product
`BUCKET_SIZE_IN_PAGES * num_allocated_buckets` wraps from the exact 65536 to
0, the wrapping `u64` grow argument `0 - 65409` becomes astronomically large,
the grow fails (its `-1` result is ignored), and the bucket region after
migration spans only 65409 pages instead of the required
`num_allocated_buckets × 128 = 65536`. -/
theorem encodeMMHeader_length (nb p : Nat) :
    (encodeMMHeader nb p).length = 2080 := by
  simp [encodeMMHeader, toLE_length]

theorem bucketTable_length (nb : Nat) (h : nb ≤ 32768) :
    (bucketTable nb).length = 32768 := by
  simp [bucketTable]
  omega

theorem migrateMem_mW8_size : (migrateMem mW8).size = 65411 := by
  have hparse : parseHeader mW8.bytes = hW8 := by decide
  have hnb : migNumBuckets mW8 = 512 := by decide
  have hp : anchorPagesV6 mW8 = 65409 := by decide
  have hdelta : migGrowDelta mW8 = 2 ^ 64 - 65409 := by decide
  show (memWrite (memWrite (growMem (memWrite mW8 0
      (encodeHeader { parseHeader mW8.bytes with version := 7 }))
        (migGrowDelta mW8))
      WASM_PAGE_SIZE (encodeMMHeader (migNumBuckets mW8) (anchorPagesV6 mW8)))
      (WASM_PAGE_SIZE + BUCKETS_OFFSET)
      (bucketTable (migNumBuckets mW8))).size = 65411
  rw [hparse, hnb, hp, hdelta]
  have hlen0 : (encodeHeader { hW8 with version := 7 }).length = 66 := by decide
  simp only [memWrite, growMem]
  rw [hlen0, encodeMMHeader_length, bucketTable_length 512 (by omega)]
  have hsz : mW8.size = 65411 := rfl
  rw [hsz]
  have hpf1 : pagesFor (0 + 66) = 1 := by decide
  have hpf2 : pagesFor (WASM_PAGE_SIZE + 2080) = 2 := by decide
  have hpf3 : pagesFor (WASM_PAGE_SIZE + BUCKETS_OFFSET + 32768) = 2 := by decide
  rw [hpf1, hpf2, hpf3]
  rw [if_neg (by decide)]
  show 65411 ⊔ 1 ⊔ 2 ⊔ 2 = 65411
  decide

/-- C8: at 65409 anchor pages the migration computes
`num_allocated_buckets = 512 = ⌈65409 / 128⌉`, but the `u16` product
`BUCKET_SIZE_IN_PAGES * num_allocated_buckets` wraps from the exact 65536 to
0, the wrapping `u64` grow argument `0 - 65409` becomes astronomically large,
the grow fails (its `-1` result is ignored), and the bucket region after
migration spans only 65409 pages instead of the required
`num_allocated_buckets × 128 = 65536`. -/
theorem c8_bucket_pages_overflow :
    anchorPagesV6 mW8 = 65409
    ∧ migNumBuckets mW8 = 512
    ∧ BUCKET_SIZE_IN_PAGES * migNumBuckets mW8 = 65536
    ∧ migBucketPages mW8 = 0
    ∧ migGrowDelta mW8 = 2 ^ 64 - 65409
    ∧ (migrateMem mW8).size = 65411
    ∧ min (migrateMem mW8).size MAX_WASM_PAGES - 2 = 65409
    ∧ 65409 < 65536 := by
  refine ⟨by decide, by decide, by decide, by decide, by decide,
    migrateMem_mW8_size, ?_, by decide⟩
  rw [migrateMem_mW8_size]
  decide

theorem growMem_bytes (m : Mem) (d : Nat) : (growMem m d).bytes = m.bytes := by
  unfold growMem
  split_ifs <;> rfl

theorem growMem_size_ge (m : Mem) (d : Nat) : m.size ≤ (growMem m d).size := by
  unfold growMem
  split_ifs <;> simp

theorem anchorPagesV6_le (m : Mem) : anchorPagesV6 m ≤ 524286 := by
  unfold anchorPagesV6
  have h1 : min m.size MAX_WASM_PAGES ≤ MAX_WASM_PAGES := min_le_right _ _
  have h2 : MAX_WASM_PAGES = 524288 := by norm_num [MAX_WASM_PAGES, WASM_PAGE_SIZE]
  omega

theorem migNumBuckets_eq (m : Mem) :
    migNumBuckets m = (anchorPagesV6 m + 127) / 128 := by
  unfold migNumBuckets
  have hp := anchorPagesV6_le m
  have hb : BUCKET_SIZE_IN_PAGES = 128 := rfl
  rw [hb]
  apply Nat.mod_eq_of_lt
  have h1 : anchorPagesV6 m + 128 - 1 ≤ 524413 := by omega
  have h2 : (anchorPagesV6 m + 128 - 1) / 128 ≤ 524413 / 128 :=
    Nat.div_le_div_right h1
  norm_num at h2
  omega

theorem migNumBuckets_le (m : Mem) : migNumBuckets m ≤ 4096 := by
  rw [migNumBuckets_eq]
  have hp := anchorPagesV6_le m
  have h1 : anchorPagesV6 m + 127 ≤ 524413 := by omega
  have h2 : (anchorPagesV6 m + 127) / 128 ≤ 524413 / 128 :=
    Nat.div_le_div_right h1
  norm_num at h2
  omega

theorem anchorPages_le_buckets (m : Mem) :
    anchorPagesV6 m ≤ 128 * migNumBuckets m := by
  rw [migNumBuckets_eq]
  have h := Nat.div_add_mod (anchorPagesV6 m + 127) 128
  have h2 : (anchorPagesV6 m + 127) % 128 < 128 :=
    Nat.mod_lt _ (by norm_num)
  omega

theorem encodeHeader_length_of_parse (f : Nat → Nat) (v : Nat) :
    (encodeHeader { parseHeader f with version := v }).length = 66 := by
  simp [encodeHeader, parseHeader, toLE_length]

theorem parseHeader_wf (f : Nat → Nat) (hf : ∀ i, f i < 256) :
    HeaderWF (parseHeader f) := by
  refine ⟨by simp [parseHeader], ?_, ?_, ?_, ?_, ?_, ?_, by simp [parseHeader],
    ?_, ?_⟩
  · simp only [parseHeader, List.all_eq_true, decide_eq_true_eq]
    intro b hb
    rw [List.mem_ofFn] at hb
    obtain ⟨i, hi⟩ := hb
    rw [← hi]
    exact hf _
  · exact lt_of_lt_of_le (hf 3) (by norm_num)
  · have h := fromLE_lt (List.ofFn fun i : Fin 4 => f (4 + i))
    rw [List.length_ofFn] at h
    exact lt_of_lt_of_le h (by norm_num)
  · have h := fromLE_lt (List.ofFn fun i : Fin 8 => f (8 + i))
    rw [List.length_ofFn] at h
    exact lt_of_lt_of_le h (by norm_num)
  · have h := fromLE_lt (List.ofFn fun i : Fin 8 => f (16 + i))
    rw [List.length_ofFn] at h
    exact lt_of_lt_of_le h (by norm_num)
  · have h := fromLE_lt (List.ofFn fun i : Fin 2 => f (24 + i))
    rw [List.length_ofFn] at h
    exact lt_of_lt_of_le h (by norm_num)
  · simp only [parseHeader, List.all_eq_true, decide_eq_true_eq]
    intro b hb
    rw [List.mem_ofFn] at hb
    obtain ⟨i, hi⟩ := hb
    rw [← hi]
    exact hf _
  · have h := fromLE_lt (List.ofFn fun i : Fin 8 => f (58 + i))
    rw [List.length_ofFn] at h
    exact lt_of_lt_of_le h (by norm_num)

theorem HeaderWF_setVersion (h : Header) (v : Nat) (hwf : HeaderWF h)
    (hv : v < 2 ^ 8) : HeaderWF { h with version := v } := by
  obtain ⟨h1, h2, -, h4, h5, h6, h7, h8, h9, h10⟩ := hwf
  exact ⟨h1, h2, hv, h4, h5, h6, h7, h8, h9, h10⟩

theorem parseHeader_congr (f g : Nat → Nat) (h : ∀ i < 66, f i = g i) :
    parseHeader f = parseHeader g := by
  unfold parseHeader
  simp only [Header.mk.injEq]
  refine ⟨?_, ?_, ?_, ?_, ?_, ?_, ?_, ?_⟩
  · exact congrArg List.ofFn (funext fun i => h i (by have := i.isLt; omega))
  · exact h 3 (by omega)
  · exact congrArg fromLE (congrArg List.ofFn (funext fun i =>
      h (4 + i) (by have := i.isLt; omega)))
  · exact congrArg fromLE (congrArg List.ofFn (funext fun i =>
      h (8 + i) (by have := i.isLt; omega)))
  · exact congrArg fromLE (congrArg List.ofFn (funext fun i =>
      h (16 + i) (by have := i.isLt; omega)))
  · exact congrArg fromLE (congrArg List.ofFn (funext fun i =>
      h (24 + i) (by have := i.isLt; omega)))
  · exact congrArg List.ofFn (funext fun i => h (26 + i) (by have := i.isLt; omega))
  · exact congrArg fromLE (congrArg List.ofFn (funext fun i =>
      h (58 + i) (by have := i.isLt; omega)))

theorem fromMemory_v6 (m : Mem) (hsz : 1 ≤ m.size)
    (hmagic : (parseHeader m.bytes).magic = [73, 73, 67])
    (hver : (parseHeader m.bytes).version = 6) :
    fromMemory m = .ok (parseHeader m.bytes) false m := by
  unfold fromMemory
  rw [if_neg (by omega), if_neg (by simp [hmagic]), if_neg (by omega),
    if_neg (by omega), if_pos hver]

theorem fromMemory_v7 (m : Mem) (hsz : 1 ≤ m.size)
    (hmagic : (parseHeader m.bytes).magic = [73, 73, 67])
    (hver : (parseHeader m.bytes).version = 7) :
    fromMemory m = .ok (parseHeader m.bytes) true m := by
  unfold fromMemory
  rw [if_neg (by omega), if_neg (by simp [hmagic]), if_neg (by omega),
    if_neg (by omega), if_neg (by omega), if_pos hver]

theorem migrateMem_eq (m : Mem) :
    migrateMem m =
      memWrite
        (memWrite
          (growMem (memWrite m 0
            (encodeHeader { parseHeader m.bytes with version := 7 }))
            (migGrowDelta m))
          WASM_PAGE_SIZE (encodeMMHeader (migNumBuckets m) (anchorPagesV6 m)))
        (WASM_PAGE_SIZE + BUCKETS_OFFSET) (bucketTable (migNumBuckets m)) := rfl

theorem migrateMem_bytes_high (m : Mem) (i : Nat)
    (hi : 2 * WASM_PAGE_SIZE ≤ i) :
    (migrateMem m).bytes i = m.bytes i := by
  have e1 : WASM_PAGE_SIZE = 65536 := rfl
  have e2 : BUCKETS_OFFSET = 2080 := rfl
  have hbt := bucketTable_length (migNumBuckets m)
    (le_trans (migNumBuckets_le m) (by norm_num))
  rw [migrateMem_eq]
  rw [memWrite_bytes_ge _ _ _ _ (by rw [hbt]; omega)]
  rw [memWrite_bytes_ge _ _ _ _ (by rw [encodeMMHeader_length]; omega)]
  rw [growMem_bytes]
  rw [memWrite_bytes_ge _ _ _ _ (by rw [encodeHeader_length_of_parse]; omega)]

theorem migrateMem_bytes_header (m : Mem) (i : Nat) (hi : i < 66) :
    (migrateMem m).bytes i =
      (memWrite m 0
        (encodeHeader { parseHeader m.bytes with version := 7 })).bytes i := by
  have e1 : WASM_PAGE_SIZE = 65536 := rfl
  have e2 : BUCKETS_OFFSET = 2080 := rfl
  rw [migrateMem_eq]
  rw [memWrite_bytes_lt _ _ _ _ (by omega)]
  rw [memWrite_bytes_lt _ _ _ _ (by omega)]
  rw [growMem_bytes]

theorem migrateMem_parse (m : Mem) (hwf : ∀ i, m.bytes i < 256) :
    parseHeader (migrateMem m).bytes =
      { parseHeader m.bytes with version := 7 } := by
  rw [parseHeader_congr (migrateMem m).bytes
    (memWrite m 0
      (encodeHeader { parseHeader m.bytes with version := 7 })).bytes
    (fun i hi => migrateMem_bytes_header m i hi)]
  exact parseHeader_memWrite_encode m _
    (HeaderWF_setVersion _ 7 (parseHeader_wf m.bytes hwf) (by norm_num))

theorem migrateMem_mmMemSize0 (m : Mem) :
    mmMemSize0 (migrateMem m) = anchorPagesV6 m := by
  unfold mmMemSize0
  have hstep1 : ∀ j : Fin 8, (migrateMem m).bytes (WASM_PAGE_SIZE + 40 + ↑j) =
      (memWrite
        (growMem (memWrite m 0
          (encodeHeader { parseHeader m.bytes with version := 7 }))
          (migGrowDelta m))
        WASM_PAGE_SIZE
        (encodeMMHeader (migNumBuckets m) (anchorPagesV6 m))).bytes
          (WASM_PAGE_SIZE + 40 + ↑j) := by
    intro j
    have e1 : WASM_PAGE_SIZE = 65536 := rfl
    have e2 : BUCKETS_OFFSET = 2080 := rfl
    have hj := j.isLt
    rw [migrateMem_eq]
    apply memWrite_bytes_lt
    omega
  rw [congrArg fromLE (congrArg List.ofFn (funext hstep1))]
  rw [memWrite_read_window _ WASM_PAGE_SIZE _ 40 8
    (by rw [encodeMMHeader_length]; omega)]
  have hext : (List.ofFn fun i : Fin 8 =>
      (encodeMMHeader (migNumBuckets m) (anchorPagesV6 m)).getD (40 + ↑i) 0) =
      toLE 8 (anchorPagesV6 m) := by
    have hE : encodeMMHeader (migNumBuckets m) (anchorPagesV6 m) =
        ([77, 71, 82] ++ [1] ++ toLE 2 (migNumBuckets m) ++
          toLE 2 BUCKET_SIZE_IN_PAGES ++ List.replicate 32 0) ++
          (toLE 8 (anchorPagesV6 m) ++ List.replicate (254 * 8) 0) := by
      simp [encodeMMHeader, List.append_assoc]
    rw [hE]
    exact window_extract _ _ _ 8 40 (by simp [toLE_length]) (toLE_length 8 _)
  rw [hext, fromLE_toLE]
  apply Nat.mod_eq_of_lt
  have hle := anchorPagesV6_le m
  have h8 : (256 : Nat) ^ 8 = 18446744073709551616 := by norm_num
  omega

theorem migrateMem_mmTable (m : Mem) :
    mmTable (migrateMem m) = bucketTable (migNumBuckets m) := by
  unfold mmTable
  have hbt := bucketTable_length (migNumBuckets m)
    (le_trans (migNumBuckets_le m) (by norm_num))
  have hw := memWrite_read_window
    (memWrite
      (growMem (memWrite m 0
        (encodeHeader { parseHeader m.bytes with version := 7 }))
        (migGrowDelta m))
      WASM_PAGE_SIZE (encodeMMHeader (migNumBuckets m) (anchorPagesV6 m)))
    (WASM_PAGE_SIZE + BUCKETS_OFFSET) (bucketTable (migNumBuckets m)) 0 32768
    (by rw [hbt])
  simp only [Nat.add_zero] at hw
  rw [migrateMem_eq, hw]
  exact window_extract_suffix [] (bucketTable (migNumBuckets m)) 32768 0 rfl hbt

theorem findNth_replicate (n : Nat) (rest : List Nat) (k : Nat) (h : k < n) :
    findNth (List.replicate n 0 ++ rest) 0 k = some k := by
  induction n generalizing k with
  | zero => omega
  | succ n ih =>
    rw [List.replicate_succ, List.cons_append]
    show findNth (0 :: (List.replicate n 0 ++ rest)) 0 k = some k
    unfold findNth
    rw [if_pos rfl]
    cases k with
    | zero => rfl
    | succ k =>
      show (findNth (List.replicate n 0 ++ rest) 0 k).map (· + 1) = some (k + 1)
      rw [ih k (by omega)]
      rfl

theorem migrateMem_vmAddr (m : Mem) (o : Nat)
    (ho : o < anchorPagesV6 m * WASM_PAGE_SIZE) :
    vmAddr (migrateMem m) o = some (2 * WASM_PAGE_SIZE + o) := by
  unfold vmAddr
  rw [migrateMem_mmTable]
  have hble : anchorPagesV6 m ≤ 128 * migNumBuckets m := anchorPages_le_buckets m
  have hB : BUCKET_SIZE_IN_PAGES * WASM_PAGE_SIZE = 8388608 := rfl
  have hP : WASM_PAGE_SIZE = 65536 := rfl
  have hdivlt : o / (BUCKET_SIZE_IN_PAGES * WASM_PAGE_SIZE) < migNumBuckets m := by
    rw [hB]
    apply Nat.div_lt_of_lt_mul
    calc o < anchorPagesV6 m * WASM_PAGE_SIZE := ho
    _ ≤ 128 * migNumBuckets m * WASM_PAGE_SIZE := Nat.mul_le_mul_right _ hble
    _ = 8388608 * migNumBuckets m := by rw [hP]; ring
  unfold bucketTable
  rw [findNth_replicate (migNumBuckets m) _ _ hdivlt]
  show some (2 * WASM_PAGE_SIZE +
      o / (BUCKET_SIZE_IN_PAGES * WASM_PAGE_SIZE) *
        (BUCKET_SIZE_IN_PAGES * WASM_PAGE_SIZE) +
      o % (BUCKET_SIZE_IN_PAGES * WASM_PAGE_SIZE)) =
    some (2 * WASM_PAGE_SIZE + o)
  rw [hB, hP]
  congr 1
  have hdm := Nat.div_add_mod o 8388608
  omega

theorem candid_limit_congr (h1 h2 : Header) (hes : h1.entry_size = h2.entry_size) :
    candid_entry_size_limit h1 = candid_entry_size_limit h2 := by
  unfold candid_entry_size_limit
  rw [hes]

theorem readEntryBytesC_congr (s1 s2 : StorageC)
    (hsz : anchorSizePages s1 = anchorSizePages s2)
    (hes : s1.header.entry_size = s2.header.entry_size)
    (hbyte : ∀ o, o < anchorSizePages s2 * WASM_PAGE_SIZE →
      anchorByte s1 o = anchorByte s2 o)
    (r : Nat) : readEntryBytesC s1 r = readEntryBytesC s2 r := by
  unfold readEntryBytesC
  rw [hsz, hes, candid_limit_congr s1.header s2.header hes]
  by_cases h1 : r * s2.header.entry_size + 2 ≤ anchorSizePages s2 * WASM_PAGE_SIZE
  · rw [if_pos h1, if_pos h1,
      hbyte (r * s2.header.entry_size) (by omega),
      hbyte (r * s2.header.entry_size + 1) (by omega)]
    by_cases h2 : candid_entry_size_limit s2.header <
        anchorByte s2 (r * s2.header.entry_size) % 256 +
          256 * (anchorByte s2 (r * s2.header.entry_size + 1) % 256)
    · rw [if_pos h2, if_pos h2]
    · rw [if_neg h2, if_neg h2]
      by_cases h3 : r * s2.header.entry_size + 2 +
          (anchorByte s2 (r * s2.header.entry_size) % 256 +
            256 * (anchorByte s2 (r * s2.header.entry_size + 1) % 256)) ≤
          anchorSizePages s2 * WASM_PAGE_SIZE
      · rw [if_pos h3, if_pos h3]
        refine congrArg some (congrArg List.ofFn (funext fun i => ?_))
        have hi := i.isLt
        exact hbyte _ (by omega)
      · rw [if_neg h3, if_neg h3]
  · rw [if_neg h1, if_neg h1]

theorem getD_lt_of_all (l : List Nat) (hall : l.all (· < 256) = true) (i : Nat) :
    l.getD i 0 < 256 := by
  by_cases hi : i < l.length
  · rw [List.getD_eq_getElem l 0 hi]
    simp only [List.all_eq_true, decide_eq_true_eq] at hall
    exact hall _ (l.getElem_mem hi)
  · rw [List.getD_eq_default l 0 (by omega)]
    norm_num

/-- C2: for every backing memory holding a version-6 store (any number of
anchors), `from_memory_v6_to_v7` yields `Some` v7 store whose header equals
the v6 header in every field except `version`, which becomes 7, and whose
`read(n)` (at the encoded-bytes level, hence for any decoder) equals the v6
store's `read(n)` for every anchor number `n`. -/
theorem c2_migration (m : Mem)
    (hwf : ∀ i, m.bytes i < 256) (hsz : 1 ≤ m.size)
    (hmagic : (parseHeader m.bytes).magic = [73, 73, 67])
    (hver : (parseHeader m.bytes).version = 6) :
    fromMemory m = .ok (parseHeader m.bytes) false m
    ∧ fromMemoryV6toV7 m =
        .ok { parseHeader m.bytes with version := 7 } true (migrateMem m)
    ∧ ∀ n,
        readC ⟨{ parseHeader m.bytes with version := 7 }, true, migrateMem m⟩ n =
          readC ⟨parseHeader m.bytes, false, m⟩ n := by
  have h6 := fromMemory_v6 m hsz hmagic hver
  have hparse7 := migrateMem_parse m hwf
  have hsz' : 1 ≤ (migrateMem m).size := by
    have s0 := memWrite_size_ge m 0
      (encodeHeader { parseHeader m.bytes with version := 7 })
    have s1 := growMem_size_ge (memWrite m 0
      (encodeHeader { parseHeader m.bytes with version := 7 })) (migGrowDelta m)
    have s2 := memWrite_size_ge (growMem (memWrite m 0
      (encodeHeader { parseHeader m.bytes with version := 7 }))
      (migGrowDelta m)) WASM_PAGE_SIZE
      (encodeMMHeader (migNumBuckets m) (anchorPagesV6 m))
    have s3 := memWrite_size_ge (memWrite (growMem (memWrite m 0
      (encodeHeader { parseHeader m.bytes with version := 7 }))
      (migGrowDelta m)) WASM_PAGE_SIZE
      (encodeMMHeader (migNumBuckets m) (anchorPagesV6 m)))
      (WASM_PAGE_SIZE + BUCKETS_OFFSET) (bucketTable (migNumBuckets m))
    rw [migrateMem_eq]
    omega
  have hmagic7 : (parseHeader (migrateMem m).bytes).magic = [73, 73, 67] := by
    rw [hparse7]
    exact hmagic
  have hver7 : (parseHeader (migrateMem m).bytes).version = 7 := by
    rw [hparse7]
  have h7 := fromMemory_v7 (migrateMem m) hsz' hmagic7 hver7
  refine ⟨h6, ?_, ?_⟩
  · unfold fromMemoryV6toV7
    rw [h6]
    show (if (parseHeader m.bytes).version = 7 then
        FmResult.ok (parseHeader m.bytes) false m
      else if (parseHeader m.bytes).version ≠ 6 then FmResult.trap
      else fromMemory (migrateMem m)) = _
    rw [if_neg (by omega), if_neg (by simp [hver]), h7, hparse7]
  · intro n
    have hsz7 : anchorSizePages
        ⟨{ parseHeader m.bytes with version := 7 }, true, migrateMem m⟩ =
        anchorSizePages ⟨parseHeader m.bytes, false, m⟩ := by
      show mmMemSize0 (migrateMem m) = anchorPagesV6 m
      exact migrateMem_mmMemSize0 m
    have hbyte : ∀ o, o < anchorSizePages ⟨parseHeader m.bytes, false, m⟩ *
        WASM_PAGE_SIZE →
        anchorByte ⟨{ parseHeader m.bytes with version := 7 }, true,
          migrateMem m⟩ o =
        anchorByte ⟨parseHeader m.bytes, false, m⟩ o := by
      intro o ho
      have ho' : o < anchorPagesV6 m * WASM_PAGE_SIZE := ho
      show ((vmAddr (migrateMem m) o).map (migrateMem m).bytes).getD 0 =
        m.bytes (2 * WASM_PAGE_SIZE + o)
      rw [migrateMem_vmAddr m o ho']
      show (migrateMem m).bytes (2 * WASM_PAGE_SIZE + o) =
        m.bytes (2 * WASM_PAGE_SIZE + o)
      exact migrateMem_bytes_high m _ (by omega)
    have hrec : anchor_number_to_record
        ({ parseHeader m.bytes with version := 7 } : Header) n =
        anchor_number_to_record (parseHeader m.bytes) n := rfl
    unfold readC
    rw [hrec]
    rcases hcase : anchor_number_to_record (parseHeader m.bytes) n with e | r
    · rfl
    · show (readEntryBytesC
          ⟨{ parseHeader m.bytes with version := 7 }, true, migrateMem m⟩
          r).map Except.ok =
        (readEntryBytesC ⟨parseHeader m.bytes, false, m⟩ r).map Except.ok
      rw [readEntryBytesC_congr _ _ hsz7 rfl hbyte r]

/-- C2 witness: the migration theorem applied to the concrete one-page v6
memory. -/
theorem c2_migration_witness :
    fromMemoryV6toV7 mW10 =
      .ok { parseHeader mW10.bytes with version := 7 } true (migrateMem mW10) :=
  (c2_migration mW10 (fun i => getD_lt_of_all _ (by decide) i)
    (by decide) (by decide) (by decide)).2.1
